import Mathlib

/-!
Verification of the solar-farm data pipeline (data loading, quality
reporting, cleaning, cleaning-impact analysis, recommendations).

The Python source is shallowly embedded: a pandas DataFrame becomes a
`Dataset` (a list of `Record`s plus the list of columns present), float
values become `Option ℚ` (`none` models NaN/missing), and each pipeline
function becomes a Lean function mirroring the source line by line.
Comparisons with NaN are `false`, as in pandas; aggregations skip
missing values, as pandas' default `skipna=True` does.
-/

/-- The numeric columns of the schema (besides `Timestamp`, `Region` and
the free-text `Comments`). -/
inductive Col where
  | GHI | DNI | DHI | ModA | ModB | Tamb | RH | WS | WSgust | WD | Precipitation | Cleaning
deriving DecidableEq, Repr

/-- One row of a DataFrame: each numeric cell is `Option ℚ` (`none` = NaN),
plus the `Region` tag attached by the loader. -/
structure Record where
  ghi : Option ℚ
  dni : Option ℚ
  dhi : Option ℚ
  modA : Option ℚ
  modB : Option ℚ
  tamb : Option ℚ
  rh : Option ℚ
  ws : Option ℚ
  wsgust : Option ℚ
  wd : Option ℚ
  precipitation : Option ℚ
  cleaning : Option ℚ
  region : String
deriving DecidableEq, Repr

/-- Read the cell of column `c`. -/
def getCol : Col → Record → Option ℚ
  | .GHI, r => r.ghi
  | .DNI, r => r.dni
  | .DHI, r => r.dhi
  | .ModA, r => r.modA
  | .ModB, r => r.modB
  | .Tamb, r => r.tamb
  | .RH, r => r.rh
  | .WS, r => r.ws
  | .WSgust, r => r.wsgust
  | .WD, r => r.wd
  | .Precipitation, r => r.precipitation
  | .Cleaning, r => r.cleaning

/-- Write the cell of column `c`. -/
def setCol : Col → Option ℚ → Record → Record
  | .GHI, v, r => { r with ghi := v }
  | .DNI, v, r => { r with dni := v }
  | .DHI, v, r => { r with dhi := v }
  | .ModA, v, r => { r with modA := v }
  | .ModB, v, r => { r with modB := v }
  | .Tamb, v, r => { r with tamb := v }
  | .RH, v, r => { r with rh := v }
  | .WS, v, r => { r with ws := v }
  | .WSgust, v, r => { r with wsgust := v }
  | .WD, v, r => { r with wd := v }
  | .Precipitation, v, r => { r with precipitation := v }
  | .Cleaning, v, r => { r with cleaning := v }

/-- A record with every numeric cell missing. -/
def blank (reg : String) : Record :=
  ⟨none, none, none, none, none, none, none, none, none, none, none, none, reg⟩

instance : Inhabited Record := ⟨blank ""⟩

/-- A DataFrame: the set of numeric columns present, whether the free-text
`Comments` column is present, and the rows in order.  Row order is
positional (the integer index after `reset_index(drop=True)`). -/
structure Dataset where
  cols : List Col
  hasComments : Bool
  rows : List Record
deriving DecidableEq, Repr

instance : Inhabited Dataset := ⟨⟨[], false, []⟩⟩

namespace Config

/-- `Config.SOLAR_COLS` from `src/config.py`. -/
def SOLAR_COLS : List Col := [.GHI, .DNI, .DHI, .ModA, .ModB]

/-- The outlier-checked columns: `Config.SOLAR_COLS + ['Tamb', 'WS']`
(`src/data_cleaning.py`, line 50). -/
def OUTLIER_COLS : List Col := SOLAR_COLS ++ [.Tamb, .WS]

/-- `Config.REGIONS` from `src/config.py`. -/
def REGIONS : List String := ["Benin", "Sierraleon", "Togo"]

end Config

section NumericHelpers

/-- Floor of a rational as an integer. -/
def qfloor (q : ℚ) : ℤ := q.num.fdiv q.den

/-- Insert into a sorted list (ascending). -/
def insertLe (x : ℚ) : List ℚ → List ℚ
  | [] => [x]
  | y :: ys => if x ≤ y then x :: y :: ys else y :: insertLe x ys

/-- Sort ascending (insertion sort; pandas sorts the values to interpolate
quantiles). -/
def sortQ : List ℚ → List ℚ
  | [] => []
  | x :: xs => insertLe x (sortQ xs)

/-- Linear interpolation at fractional position `γ` between the first two
elements (the tail of the sorted list starting at the floor position). -/
def interpAt (γ : ℚ) : List ℚ → Option ℚ
  | [] => none
  | [a] => some a
  | a :: b :: _ => some (a + γ * (b - a))

/-- `Series.quantile(q)` with the pandas default `interpolation='linear'`,
over already-sorted values: position `h = (n-1)·q`, result
`ys[⌊h⌋] + (h-⌊h⌋)·(ys[⌊h⌋+1] - ys[⌊h⌋])`.  `none` on an empty series
(pandas returns NaN). -/
def quantileSorted (q : ℚ) (ys : List ℚ) : Option ℚ :=
  match ys with
  | [] => none
  | _ :: _ =>
    let h : ℚ := ((ys.length - 1 : ℕ) : ℚ) * q
    let i : ℕ := (qfloor h).toNat
    interpAt (h - (i : ℚ)) (ys.drop i)

/-- `Series.quantile(q)`: sort the non-missing values, then interpolate. -/
def quantileQ (q : ℚ) (xs : List ℚ) : Option ℚ := quantileSorted q (sortQ xs)

/-- `Series.mean()` with `skipna=True`: NaN when no value is present. -/
def meanOpt (xs : List ℚ) : Option ℚ :=
  match xs with
  | [] => none
  | _ :: _ => some (xs.sum / (xs.length : ℚ))

/-- NaN-propagating subtraction. -/
def osub : Option ℚ → Option ℚ → Option ℚ
  | some a, some b => some (a - b)
  | _, _ => none

end NumericHelpers

section Cleaner

/-- Step 2 of `clean_data` (`.ffill()`), for one column: a missing cell
inherits the most recent non-missing value, scanning the whole frame in
row order; `last` is the value carried in from earlier rows. -/
def ffillCol (c : Col) : Option ℚ → List Record → List Record
  | _, [] => []
  | last, r :: rs =>
    match getCol c r with
    | some v => r :: ffillCol c (some v) rs
    | none => setCol c last r :: ffillCol c last rs

/-- All twelve numeric columns. -/
def allCols : List Col :=
  [.GHI, .DNI, .DHI, .ModA, .ModB, .Tamb, .RH, .WS, .WSgust, .WD, .Precipitation, .Cleaning]

/-- `df.ffill()`: forward-fill every column. -/
def ffillRows (rows : List Record) : List Record :=
  allCols.foldl (fun rs c => ffillCol c none rs) rows

/-- Step 3 of `clean_data`: `df_clean[col].clip(lower=0)` for each solar
column present (the per-record action of the column-wise loop). -/
def clipSolarRec (cols : List Col) (r : Record) : Record :=
  Config.SOLAR_COLS.foldl
    (fun r c => if c ∈ cols then setCol c ((getCol c r).map (fun v => max v 0)) r else r) r

/-- Step 4 of `clean_data`: `df_clean['RH'].clip(0, 100)` when present. -/
def clipRHRec (cols : List Col) (r : Record) : Record :=
  if Col.RH ∈ cols then
    setCol .RH ((getCol .RH r).map (fun v => min (max v 0) 100)) r
  else r

/-- Steps 3–4 applied to every row. -/
def clipRows (cols : List Col) (rows : List Record) : List Record :=
  rows.map (fun r => clipRHRec cols (clipSolarRec cols r))

/-- The non-missing values of column `c`, in row order. -/
def colVals (c : Col) (rows : List Record) : List ℚ := rows.filterMap (getCol c)

/-- One iteration of the outlier loop of `clean_data`: compute Q1 and Q3 of
the current column values, keep the rows whose value lies within
`[Q1 - 1.5·IQR, Q3 + 1.5·IQR]`.  A NaN cell (or NaN quantile) fails both
comparisons, so the row is removed, as in pandas. -/
def iqrStep (c : Col) (rows : List Record) : List Record :=
  let q1 := quantileQ (1/4) (colVals c rows)
  let q3 := quantileQ (3/4) (colVals c rows)
  rows.filter (fun r =>
    match q1, q3, getCol c r with
    | some a, some b, some v =>
        decide (a - 3/2 * (b - a) ≤ v ∧ v ≤ b + 3/2 * (b - a))
    | _, _, _ => false)

/-- Step 5 of `clean_data`: the cumulative outlier pass over
`Config.SOLAR_COLS + ['Tamb', 'WS']`, in that order, skipping absent
columns; later columns see the rows already filtered by earlier ones. -/
def iqrPass (cols : List Col) (rows : List Record) : List Record :=
  Config.OUTLIER_COLS.foldl (fun rs c => if c ∈ cols then iqrStep c rs else rs) rows

/-- `clean_data` from `src/data_cleaning.py`: drop `Comments`, forward-fill,
clip solar columns at 0, clip RH to [0,100], run the cumulative IQR outlier
pass, re-index.  (Re-indexing is the identity here because rows are
positional.) -/
def clean_data (df : Dataset) : Dataset :=
  { cols := df.cols
    hasComments := false
    rows := iqrPass df.cols (clipRows df.cols (ffillRows df.rows)) }

end Cleaner

section StringOrder

/-- Python compares strings by code points; lexicographic `<` on the
character codes. -/
def charsLt : List Char → List Char → Bool
  | [], [] => false
  | [], _ :: _ => true
  | _ :: _, [] => false
  | a :: as, b :: bs =>
    if a.toNat < b.toNat then true
    else if b.toNat < a.toNat then false
    else charsLt as bs

/-- `a < b` on strings, by code points. -/
def strLt (a b : String) : Bool := charsLt a.toList b.toList

/-- Distinct elements of a string list (as a set; the order is
canonicalised by sorting afterwards). -/
def dedupStr : List String → List String
  | [] => []
  | x :: xs => if x ∈ dedupStr xs then dedupStr xs else x :: dedupStr xs

/-- Insert into a string list sorted ascending. -/
def insertStr (x : String) : List String → List String
  | [] => [x]
  | y :: ys => if strLt y x then y :: insertStr x ys else x :: y :: ys

/-- Sort strings ascending (groupby sorts its keys). -/
def sortStr : List String → List String
  | [] => []
  | x :: xs => insertStr x (sortStr xs)

end StringOrder

section Analyzer

/-- One element of the `results` list built by `analyze_cleaning_impact`:
the region of the triggering row and the ModA/ModB improvements
(`post − pre`, NaN-propagating). -/
structure ImpactRow where
  region : String
  dModA : Option ℚ
  dModB : Option ℚ
deriving DecidableEq, Repr

/-- `df[df['Cleaning'] == 1].index`: the (0-based, positional) indices of
the rows whose `Cleaning` cell equals 1.  A NaN cell compares unequal. -/
def cleaningIdx (rows : List Record) : List ℕ :=
  (List.range rows.length).filter (fun i =>
    match rows.get? i with
    | some r => decide (getCol .Cleaning r = some 1)
    | none => false)

/-- `df.loc[lo:hi]` on the positional index: rows `lo..hi`, both ends
included. -/
def locSlice (rows : List Record) (lo hi : ℕ) : List Record :=
  (rows.drop lo).take (hi + 1 - lo)

/-- The event built for a qualifying index `i`:
`pre  = df.loc[i-3:i-1, ['ModA','ModB']].mean()`,
`post = df.loc[i+1:i+3, ['ModA','ModB']].mean()`, improvements
`post − pre`. -/
def impactEntry (rows : List Record) (i : ℕ) : ImpactRow :=
  let pre := locSlice rows (i - 3) (i - 1)
  let post := locSlice rows (i + 1) (i + 3)
  { region := ((rows.get? i).map (·.region)).getD ""
    dModA := osub (meanOpt (colVals .ModA post)) (meanOpt (colVals .ModA pre))
    dModB := osub (meanOpt (colVals .ModB post)) (meanOpt (colVals .ModB pre)) }

/-- The loop of `analyze_cleaning_impact`: for each cleaning-event index,
append an event if `idx > 3 and idx < len(df) - 3`. -/
def resultsGo (rows : List Record) : List ℕ → List ImpactRow
  | [] => []
  | i :: is =>
    if 3 < i ∧ i + 3 < rows.length then impactEntry rows i :: resultsGo rows is
    else resultsGo rows is

/-- The `results` list of `analyze_cleaning_impact`. -/
def resultsList (df : Dataset) : List ImpactRow := resultsGo df.rows (cleaningIdx df.rows)

/-- The region keys of a groupby, sorted ascending with duplicates removed. -/
def impactKeys (res : List ImpactRow) : List String := sortStr (dedupStr (res.map (·.region)))

/-- `pd.DataFrame(results).groupby('Region').mean()`: per region, the mean
of the ModA/ModB improvements (missing entries skipped). -/
def groupImpact (res : List ImpactRow) : List (String × Option ℚ × Option ℚ) :=
  (impactKeys res).map (fun g =>
    let mine := res.filter (fun e => decide (e.region = g))
    (g, meanOpt (mine.filterMap (·.dModA)), meanOpt (mine.filterMap (·.dModB))))

/-- `analyze_cleaning_impact` from `src/analysis.py`.  Errors: a missing
`Cleaning` column raises `KeyError('Cleaning')`; with a qualifying event, a
missing `ModA`/`ModB` raises inside the loop; with an empty `results` list,
`pd.DataFrame([]).groupby('Region')` raises `KeyError('Region')`. -/
def analyze_cleaning_impact (df : Dataset) : Except String (List (String × Option ℚ × Option ℚ)) :=
  if Col.Cleaning ∉ df.cols then .error "Cleaning"
  else
    let res := resultsList df
    if res ≠ [] ∧ (Col.ModA ∉ df.cols ∨ Col.ModB ∉ df.cols) then .error "ModA/ModB"
    else if res = [] then .error "Region"
    else .ok (groupImpact res)

end Analyzer

section Rounding

/-- Round half to even, the semantics of `numpy.round` (floats modelled as
exact rationals). -/
def halfEvenZ (q : ℚ) : ℤ :=
  let f := qfloor q
  let r := q - (f : ℚ)
  if r < 1/2 then f
  else if 1/2 < r then f + 1
  else if f % 2 = 0 then f else f + 1

/-- `.round(2)`: round half to even at two decimal places. -/
def round2 (q : ℚ) : ℚ := (halfEvenZ (100 * q) : ℚ) / 100

/-- Floor integer square root by fuelled binary search (the fuel is ample;
`Nat.sqrt` itself is not kernel-reducible). -/
def isqrtGo (n : ℕ) : ℕ → ℕ → ℕ → ℕ
  | 0, lo, _ => lo
  | fuel + 1, lo, hi =>
    let mid := (lo + hi) / 2
    if mid = lo then lo
    else if mid * mid ≤ n then isqrtGo n fuel mid hi
    else isqrtGo n fuel lo mid

/-- `⌊√n⌋`. -/
def isqrt (n : ℕ) : ℕ := isqrtGo n (n + 2) 0 (n + 2)

/-- `⌊√q⌋` for `0 ≤ q`: equals `⌊√⌊q⌋⌋`. -/
def qsqrtFloor (q : ℚ) : ℕ := isqrt (qfloor q).toNat

/-- `round(100·√v)` half to even, computed exactly on rationals: with
`t = 10000·v` and `m = ⌊√t⌋`, compare `√t` against `m + 1/2` by squaring
(`4t` against `(2m+1)²`); a tie rounds to even.  This is the two-decimal
rounding of the standard deviation `√v` scaled by 100. -/
def stdRound100 (v : ℚ) : ℕ :=
  let t := 10000 * v
  let m := qsqrtFloor t
  if 4 * t < ((2 * m + 1 : ℕ) : ℚ) ^ 2 then m
  else if ((2 * m + 1 : ℕ) : ℚ) ^ 2 < 4 * t then m + 1
  else if m % 2 = 0 then m else m + 1

/-- Mathematical specification of numpy's round-half-to-even on a real
argument; used only to justify that `stdRound100` is faithful to
`round(100 * sqrt(v), half to even)`. -/
noncomputable def halfEvenR (x : ℝ) : ℤ :=
  if x - ⌊x⌋ < 1/2 then ⌊x⌋
  else if 1/2 < x - ⌊x⌋ then ⌊x⌋ + 1
  else if ⌊x⌋ % 2 = 0 then ⌊x⌋ else ⌊x⌋ + 1

/-- `Series.std()` (pandas default `ddof=1`): the sample variance; NaN for
fewer than two values. -/
def sampleVar (xs : List ℚ) : Option ℚ :=
  match xs with
  | [] => none
  | [_] => none
  | _ :: _ :: _ =>
    let n : ℚ := (xs.length : ℚ)
    let μ := xs.sum / n
    some ((xs.map (fun x => (x - μ) ^ 2)).sum / (n - 1))

/-- The standard deviation rounded to two decimals (the `('GHI','std')`
aggregate after `.round(2)`), as an exact rational. -/
def stdRounded (xs : List ℚ) : Option ℚ :=
  (sampleVar xs).map (fun v => ((stdRound100 v : ℕ) : ℚ) / 100)

end Rounding

section Recommender

/-- The region keys of `df.groupby('Region')`: distinct regions, sorted. -/
def regionKeys (df : Dataset) : List String := sortStr (dedupStr (df.rows.map (·.region)))

/-- The rows of one groupby group. -/
def groupRows (df : Dataset) (g : String) : List Record :=
  df.rows.filter (fun r => decide (r.region = g))

/-- The `('GHI','mean')` aggregate of `generate_recommendations`, after
`.round(2)`. -/
def aggMeanGHI (df : Dataset) (g : String) : Option ℚ :=
  (meanOpt (colVals .GHI (groupRows df g))).map round2

/-- The `('GHI','std')` aggregate, after `.round(2)`. -/
def aggStdGHI (df : Dataset) (g : String) : Option ℚ :=
  stdRounded (colVals .GHI (groupRows df g))

/-- The `('Precipitation','sum')` aggregate, after `.round(2)` (a sum
skips NaN and is 0 on an empty group, so it is never NaN). -/
def aggSumPrec (df : Dataset) (g : String) : Option ℚ :=
  some (round2 (colVals .Precipitation (groupRows df g)).sum)

/-- The `('DNI','median')` aggregate, after `.round(2)`. -/
def aggMedDNI (df : Dataset) (g : String) : Option ℚ :=
  (quantileQ (1/2) (colVals .DNI (groupRows df g))).map round2

/-- `Series.idxmax()`: the first key (in key order) whose value attains the
maximum; NaN values are skipped; `none` when no value is present (pandas
raises). -/
def idxmaxBy (f : String → Option ℚ) : List String → Option (String × ℚ)
  | [] => none
  | g :: gs =>
    match f g, idxmaxBy f gs with
    | none, rest => rest
    | some v, none => some (g, v)
    | some v, some (g', v') => if v' > v then some (g', v') else some (g, v)

/-- `Series.idxmin()`, symmetrically. -/
def idxminBy (f : String → Option ℚ) : List String → Option (String × ℚ)
  | [] => none
  | g :: gs =>
    match f g, idxminBy f gs with
    | none, rest => rest
    | some v, none => some (g, v)
    | some v, some (g', v') => if v' < v then some (g', v') else some (g, v)

/-- The four decision labels. -/
structure Recommendation where
  bestOverall : String
  mostStable : String
  lowestMaintenance : String
  optimalCSP : String
deriving DecidableEq, Repr

/-- The columns named in the `.agg` dict of `generate_recommendations`;
a missing one raises `KeyError`. -/
def recRequiredCols : List Col := [.GHI, .DNI, .Tamb, .Precipitation, .WSgust]

/-- `generate_recommendations` from `src/analysis.py`: group by region,
aggregate, `.round(2)`, then pick `idxmax`/`idxmin` per label.  An absent
required column raises `KeyError`; an all-NaN (or empty) aggregate makes
`idxmax`/`idxmin` raise `ValueError`. -/
def generate_recommendations (df : Dataset) : Except String Recommendation :=
  if ¬ (recRequiredCols.all (· ∈ df.cols)) then .error "missing column"
  else
    let keys := regionKeys df
    match idxmaxBy (aggMeanGHI df) keys, idxminBy (aggStdGHI df) keys,
          idxminBy (aggSumPrec df) keys, idxmaxBy (aggMedDNI df) keys with
    | some b, some s, some m, some c => .ok ⟨b.1, s.1, m.1, c.1⟩
    | _, _, _, _ => .error "empty aggregate"

end Recommender

section Loader

/-- `pd.concat(dfs, ignore_index=True)`: rows appended in order, columns
the union. -/
def concatDatasets (ds : List Dataset) : Dataset :=
  { cols := (ds.map (·.cols)).foldr (fun a b => a ∪ b) []
    hasComments := ds.any (·.hasComments)
    rows := (ds.map (·.rows)).flatten }

/-- `load_all_regions_data` from `src/data_loading.py`, parameterised by the
per-region loader (`load_region_data` reads a CSV; a missing or malformed
file is an `Except.error`): failed regions are skipped, and if no region
loaded, `ValueError("No valid data available")` is raised. -/
def load_all_regions_data (load : String → Except String Dataset)
    (regions : List String) : Except String Dataset :=
  let dfs := regions.filterMap (fun rg => (load rg).toOption)
  if dfs = [] then .error "No valid data available"
  else .ok (concatDatasets dfs)

end Loader

section QualityReport

/-- The per-column counters of `generate_quality_report`: missing, zeros,
negatives, and (for GHI/RH/Tamb) out-of-range. -/
structure ColReport where
  missing : ℕ
  zeros : ℕ
  negatives : ℕ
  outOfRange : Option ℕ
deriving DecidableEq, Repr

/-- The fixed `ranges` dict of `generate_quality_report`. -/
def reportRanges : Col → Option (ℚ × ℚ)
  | .GHI => some (0, 1500)
  | .RH => some (0, 100)
  | .Tamb => some (-20, 60)
  | _ => none

/-- `generate_quality_report` from `src/data_cleaning.py`: for every column
present, count missing cells, exact zeros, negatives, and values outside
the fixed range when one is defined.  A NaN cell fails every comparison. -/
def generate_quality_report (df : Dataset) : List (Col × ColReport) :=
  df.cols.map (fun c =>
    let cells := df.rows.map (getCol c)
    (c, { missing := (cells.filter (·.isNone)).length
          zeros := (cells.filter (· == some 0)).length
          negatives := (cells.filter (fun v =>
            match v with | some x => decide (x < 0) | none => false)).length
          outOfRange := (reportRanges c).map (fun bounds =>
            (cells.filter (fun v =>
              match v with
              | some x => decide (x < bounds.1 ∨ bounds.2 < x)
              | none => false)).length) }))

end QualityReport

section StoreModel

/-!
A small store model for the frame/no-mutation claim: the DataFrames live
in a heap (`List Dataset`, addressed by allocation index).  Each pandas
call is modelled with its true copy/in-place behaviour: `drop` and
`ffill` return fresh frames, column assignment `df_clean[col] = …`
writes in place to the frame it targets, boolean-mask filtering
`df_clean[mask]` and `reset_index(drop=True)` return fresh frames.
-/

/-- Read the frame at address `r`. -/
def readRef (s : List Dataset) (r : ℕ) : Dataset := s.getD r default

/-- Allocate a fresh frame, returning its address. -/
def alloc (s : List Dataset) (d : Dataset) : ℕ × List Dataset := (s.length, s ++ [d])

/-- Overwrite the frame at address `r` in place. -/
def writeRef (s : List Dataset) (r : ℕ) (d : Dataset) : List Dataset := s.set r d

/-- In-place `df_clean[col] = df_clean[col].clip(lower=0)` for one solar
column. -/
def clipSolarColD (c : Col) (d : Dataset) : Dataset :=
  { d with rows := d.rows.map (fun r => setCol c ((getCol c r).map (fun v => max v 0)) r) }

/-- In-place `df_clean['RH'] = df_clean['RH'].clip(0, 100)`. -/
def clipRHColD (d : Dataset) : Dataset :=
  { d with rows := d.rows.map (fun r =>
      setCol .RH ((getCol .RH r).map (fun v => min (max v 0) 100)) r) }

/-- Stage 1 of the `clean_data` program:
`df_clean = df.drop(columns='Comments', errors='ignore').ffill()`
allocates a fresh frame; the first component is its address. -/
def cleanStage1 (s : List Dataset) (df : ℕ) : ℕ × List Dataset :=
  alloc s { cols := (readRef s df).cols, hasComments := false,
            rows := ffillRows (readRef s df).rows }

/-- Stage 2: `for col in Config.SOLAR_COLS: df_clean[col] =
df_clean[col].clip(lower=0)` — in-place writes to the frame at `rc`. -/
def cleanStage2 (rc : ℕ) (s : List Dataset) : List Dataset :=
  Config.SOLAR_COLS.foldl (fun st c =>
    if c ∈ (readRef st rc).cols then writeRef st rc (clipSolarColD c (readRef st rc)) else st) s

/-- Stage 3: `if 'RH' in df_clean.columns: df_clean['RH'] =
df_clean['RH'].clip(0, 100)` — an in-place write to the frame at `rc`. -/
def cleanStage3 (rc : ℕ) (s : List Dataset) : List Dataset :=
  if Col.RH ∈ (readRef s rc).cols then writeRef s rc (clipRHColD (readRef s rc)) else s

/-- Stage 4: the outlier loop; each `df_clean = df_clean[mask]` rebinds the
variable to a freshly allocated frame. -/
def cleanStage4 (rc : ℕ) (s : List Dataset) : ℕ × List Dataset :=
  Config.OUTLIER_COLS.foldl (fun (p : ℕ × List Dataset) c =>
    let cur := readRef p.2 p.1
    if c ∈ cur.cols then alloc p.2 { cur with rows := iqrStep c cur.rows } else p) (rc, s)

/-- `clean_data` as a store program: `df` is the address of the caller's
frame; the returned address holds the cleaned frame
(`reset_index(drop=True)` allocates the returned frame). -/
def cleanDataProg (s : List Dataset) (df : ℕ) : ℕ × List Dataset :=
  let p1 := cleanStage1 s df
  let s2 := cleanStage2 p1.1 p1.2
  let s3 := cleanStage3 p1.1 s2
  let p4 := cleanStage4 p1.1 s3
  alloc p4.2 (readRef p4.2 p4.1)

/-- `generate_quality_report` as a store program: it only reads its input
frame and builds a fresh report. -/
def qualityReportProg (s : List Dataset) (df : ℕ) :
    List (Col × ColReport) × List Dataset :=
  (generate_quality_report (readRef s df), s)

end StoreModel

section DerivedDefs

/-- The cells of column `c`, in row order (including missing ones). -/
def colList (c : Col) (rows : List Record) : List (Option ℚ) := rows.map (getCol c)

/-- Column-level forward fill: `last` is the value carried in. -/
def ffillO : Option ℚ → List (Option ℚ) → List (Option ℚ)
  | _, [] => []
  | last, x :: xs =>
    match x with
    | some v => some v :: ffillO (some v) xs
    | none => last :: ffillO last xs

/-- A column whose missing cells all come before its first present cell:
the shape forward-fill produces. -/
def ffStable : List (Option ℚ) → Prop
  | [] => True
  | x :: xs => (x = none ∧ ffStable xs) ∨ (x ≠ none ∧ ∀ y ∈ xs, y ≠ none)

/-- The frame entering the outlier loop (after drop/ffill/clip). -/
def preOutlierRows (df : Dataset) : List Record := clipRows df.cols (ffillRows df.rows)

/-- The rows after the first `k` iterations of the outlier loop. -/
def stageRows (cols : List Col) (rows : List Record) (k : ℕ) : List Record :=
  (Config.OUTLIER_COLS.take k).foldl (fun rs c => if c ∈ cols then iqrStep c rs else rs) rows

/-- The claim's bound predicate: `v` lies within `[Q1 - 1.5·IQR, Q3 + 1.5·IQR]`
for the quartiles of column `c` computed over `base`. -/
def inBounds (c : Col) (base : List Record) (v : ℚ) : Prop :=
  ∃ a b, quantileQ (1/4) (colVals c base) = some a ∧
    quantileQ (3/4) (colVals c base) = some b ∧
    a - 3/2 * (b - a) ≤ v ∧ v ≤ b + 3/2 * (b - a)

/-- The most recent non-missing value at or before position `i` of a
column, with `l` carried in from before the list. -/
def lastFrom (l : Option ℚ) (xs : List (Option ℚ)) (i : ℕ) : Option ℚ :=
  match ((xs.take (i + 1)).filterMap id).getLast? with
  | some v => some v
  | none => l

/-- The property C3 claims: every remaining value of every outlier-checked
column lies within the IQR bounds computed on the *final* cleaned frame. -/
def finalBoundsClaim (df : Dataset) : Prop :=
  ∀ c ∈ Config.OUTLIER_COLS, c ∈ df.cols → ∀ r ∈ (clean_data df).rows,
    ∀ v, getCol c r = some v → inBounds c (clean_data df).rows v

end DerivedDefs

/-! ### Concrete datasets for the scenarios -/

/-- A single-column GHI row. -/
def ghiRow (reg : String) (v : ℚ) : Record := { blank reg with ghi := some v }

/-- The spec's clipping/outlier scenario: `GHI = [-5, 10, 2000, 15, 12]`. -/
def D4 : Dataset :=
  ⟨[.GHI], false,
    [ghiRow "A" (-5), ghiRow "A" 10, ghiRow "A" 2000, ghiRow "A" 15, ghiRow "A" 12]⟩

/-- Re-cleaning removes a further row here: the first IQR pass drops 1000,
which tightens the quartiles so that a second pass also drops 100. -/
def D2 : Dataset :=
  ⟨[.GHI], false,
    [ghiRow "A" 0, ghiRow "A" 0, ghiRow "A" 0, ghiRow "A" 0,
     ghiRow "A" 100, ghiRow "A" 1000]⟩

/-- A GHI/Tamb row. -/
def gtRow (reg : String) (g t : ℚ) : Record :=
  { blank reg with
    ghi := some g
    tamb := some t }

/-- The Tamb filter (after the GHI filter) removes the row carrying GHI 95,
which tightens GHI's quartiles on the final frame past the kept GHI 100. -/
def D3 : Dataset :=
  ⟨[.GHI, .Tamb], false,
    [gtRow "A" 0 10, gtRow "A" 0 10, gtRow "A" 0 10, gtRow "A" 0 10,
     gtRow "A" 100 10, gtRow "A" 95 1000]⟩

/-- A ModA/ModB row with a cleaning flag. -/
def evRow (reg : String) (a b fl : ℚ) : Record :=
  { blank reg with
    modA := some a
    modB := some b
    cleaning := some fl }

/-- Seven rows with the only Cleaning flag at index 3. -/
def D1 : Dataset :=
  ⟨[.ModA, .ModB, .Cleaning], false,
    [evRow "A" 10 20 0, evRow "A" 10 20 0, evRow "A" 10 20 0,
     evRow "A" 10 20 1, evRow "A" 10 20 0, evRow "A" 10 20 0, evRow "A" 10 20 0]⟩

/-- Eight rows with the only Cleaning flag at index 4: the first index the
analyzer accepts.  Pre-window ModA mean is 10, post-window 16. -/
def D1b : Dataset :=
  ⟨[.ModA, .ModB, .Cleaning], false,
    [evRow "A" 4 20 0, evRow "A" 10 20 0, evRow "A" 10 20 0, evRow "A" 10 20 0,
     evRow "A" 10 20 1, evRow "A" 16 20 0, evRow "A" 16 20 0, evRow "A" 16 20 0]⟩

/-- Two regions: region B's first row has a missing RH cell. -/
def D5 : Dataset :=
  ⟨[.RH], false, [{ blank "A" with rh := some 50 }, blank "B"]⟩

/-- A row with every column `generate_recommendations` aggregates. -/
def recRow (reg : String) (g d t p w : ℚ) : Record :=
  { blank reg with
    ghi := some g
    dni := some d
    tamb := some t
    precipitation := some p
    wsgust := some w }

/-- Two regions with clearly separated aggregates: region A has mean GHI
300, GHI std 1, total precipitation 3, median DNI 100; region B has mean
GHI 500, GHI std 2, total precipitation 6, median DNI 200. -/
def D8w : Dataset :=
  ⟨[.GHI, .DNI, .Tamb, .Precipitation, .WSgust], false,
    [recRow "A" 299 100 25 1 0, recRow "A" 300 100 25 1 0, recRow "A" 301 100 25 1 0,
     recRow "B" 498 200 25 2 0, recRow "B" 500 200 25 2 0, recRow "B" 502 200 25 2 0]⟩

/-- A rounding-tie dataset: mean GHI is 1.001 for region A and 1.004 for
region B, both rounding to 1.00, so `idxmax` keeps the first key "A" even
though B's true mean is higher.  The frame is a fixed point of the
Cleaner. -/
def D8c : Dataset :=
  ⟨[.GHI, .DNI, .Tamb, .Precipitation, .WSgust], false,
    [recRow "A" 1 5 25 0 0, recRow "A" (501/500) 5 25 0 0,
     recRow "B" 1 5 25 0 0, recRow "B" (126/125) 5 25 0 0]⟩

/-- The single row of the one-row witness frame: GHI 7, RH 50. -/
def rw6 : Record := { ghiRow "A" 7 with rh := some 50 }

def DW6 : Dataset := ⟨[.GHI, .RH], false, [rw6]⟩

/-- A loader that always fails (missing/malformed source for every
region). -/
def loadNone : String → Except String Dataset := fun _ => .error "file not found"


/-! ### Cell algebra -/

theorem getCol_setCol_same (c : Col) (v : Option ℚ) (r : Record) :
    getCol c (setCol c v r) = v := by
  cases c <;> rfl

theorem getCol_setCol_ne {c c' : Col} (h : c ≠ c') (v : Option ℚ) (r : Record) :
    getCol c (setCol c' v r) = getCol c r := by
  cases c <;> cases c' <;> first
    | rfl
    | exact absurd rfl h

theorem setCol_getCol_self (c : Col) (r : Record) : setCol c (getCol c r) r = r := by
  cases c <;> rfl

theorem region_setCol (c : Col) (v : Option ℚ) (r : Record) :
    (setCol c v r).region = r.region := by
  cases c <;> rfl

/-! ### Column views -/

theorem colList_ffillCol_same (c : Col) :
    ∀ (l : Option ℚ) (rows : List Record),
      colList c (ffillCol c l rows) = ffillO l (colList c rows)
  | _, [] => rfl
  | l, r :: rs => by
    cases h : getCol c r with
    | some v =>
        simp only [ffillCol, h, colList, List.map_cons, ffillO]
        exact congrArg _ (colList_ffillCol_same c (some v) rs)
    | none =>
        simp only [ffillCol, h, colList, List.map_cons, ffillO,
          getCol_setCol_same]
        exact congrArg _ (colList_ffillCol_same c l rs)

theorem colList_ffillCol_ne {c c' : Col} (h : c ≠ c') :
    ∀ (l : Option ℚ) (rows : List Record),
      colList c (ffillCol c' l rows) = colList c rows
  | _, [] => rfl
  | l, r :: rs => by
    cases h' : getCol c' r with
    | some v =>
        simp only [ffillCol, h', colList, List.map_cons]
        exact congrArg _ (colList_ffillCol_ne h (some v) rs)
    | none =>
        simp only [ffillCol, h', colList, List.map_cons, getCol_setCol_ne h]
        exact congrArg _ (colList_ffillCol_ne h l rs)

theorem ffillO_ffillO : ∀ (l : Option ℚ) (xs : List (Option ℚ)),
    ffillO l (ffillO l xs) = ffillO l xs
  | _, [] => rfl
  | l, some v :: xs => by
    simp only [ffillO]
    exact congrArg _ (ffillO_ffillO (some v) xs)
  | none, none :: xs => by
    simp only [ffillO]
    exact congrArg _ (ffillO_ffillO none xs)
  | some w, none :: xs => by
    simp only [ffillO]
    exact congrArg _ (ffillO_ffillO (some w) xs)

/-- The column view of the whole forward-fill pass: column `c` is filled
(once; filling is idempotent) and other columns do not disturb it. -/
theorem colList_ffillFold (c : Col) :
    ∀ (L : List Col) (rows : List Record),
      colList c (L.foldl (fun rs c' => ffillCol c' none rs) rows) =
        if c ∈ L then ffillO none (colList c rows) else colList c rows
  | [], rows => by simp
  | c' :: L, rows => by
    rw [List.foldl_cons, colList_ffillFold c L]
    by_cases hcc : c = c'
    · subst hcc
      simp only [List.mem_cons, true_or, if_true, colList_ffillCol_same]
      by_cases hL : c ∈ L
      · rw [if_pos hL, ffillO_ffillO]
      · rw [if_neg hL]
    · rw [colList_ffillCol_ne hcc]
      simp only [List.mem_cons]
      by_cases hL : c ∈ L
      · rw [if_pos hL, if_pos (Or.inr hL)]
      · rw [if_neg hL, if_neg (by tauto)]

theorem colList_ffillRows (c : Col) (rows : List Record) :
    colList c (ffillRows rows) = ffillO none (colList c rows) := by
  have hc : c ∈ allCols := by cases c <;> decide
  rw [ffillRows, colList_ffillFold c allCols rows, if_pos hc]



/-! ### Forward-fill stability -/

theorem ffillO_nil (l : Option ℚ) : ffillO l [] = [] := rfl

theorem ffillO_cons_some (l : Option ℚ) (v : ℚ) (xs : List (Option ℚ)) :
    ffillO l (some v :: xs) = some v :: ffillO (some v) xs := rfl

theorem ffillO_cons_none (l : Option ℚ) (xs : List (Option ℚ)) :
    ffillO l (none :: xs) = l :: ffillO l xs := rfl

theorem ffStable_of_allSome : ∀ {xs : List (Option ℚ)}, (∀ y ∈ xs, y ≠ none) → ffStable xs
  | [], _ => trivial
  | x :: xs, h =>
    Or.inr ⟨h x (List.mem_cons_self x xs), fun y hy => h y (List.mem_cons_of_mem x hy)⟩

theorem allSome_ffillO_some : ∀ (v : ℚ) (xs : List (Option ℚ)),
    ∀ y ∈ ffillO (some v) xs, y ≠ none
  | _, [], _, hy => absurd hy (List.not_mem_nil _)
  | v, some w :: xs, y, hy => by
    rw [ffillO_cons_some] at hy
    rcases List.mem_cons.1 hy with h | h
    · simp [h]
    · exact allSome_ffillO_some w xs y h
  | v, none :: xs, y, hy => by
    rw [ffillO_cons_none] at hy
    rcases List.mem_cons.1 hy with h | h
    · simp [h]
    · exact allSome_ffillO_some v xs y h

theorem ffStable_ffillO_none : ∀ (xs : List (Option ℚ)), ffStable (ffillO none xs)
  | [] => trivial
  | some v :: xs => by
    rw [ffillO_cons_some]
    exact Or.inr ⟨by simp, allSome_ffillO_some v xs⟩
  | none :: xs => by
    rw [ffillO_cons_none]
    exact Or.inl ⟨rfl, ffStable_ffillO_none xs⟩

theorem ffStable_sublist :
    ∀ {xs ys : List (Option ℚ)}, List.Sublist xs ys → ffStable ys → ffStable xs := by
  intro xs ys h
  induction h with
  | slnil => exact fun h => h
  | cons y _ ih =>
      intro hy
      apply ih
      rcases hy with ⟨_, h⟩ | ⟨_, h⟩
      · exact h
      · exact ffStable_of_allSome h
  | cons₂ y h ih =>
      rintro (⟨hn, hs⟩ | ⟨hn, hs⟩)
      · exact Or.inl ⟨hn, ih hs⟩
      · exact Or.inr ⟨hn, fun z hz => hs z (h.subset hz)⟩

theorem ffStable_map {f : Option ℚ → Option ℚ} (hf : ∀ x, f x = none ↔ x = none) :
    ∀ {xs : List (Option ℚ)}, ffStable xs → ffStable (xs.map f)
  | [], _ => trivial
  | x :: xs, h => by
    rcases h with ⟨hn, hs⟩ | ⟨hn, hs⟩
    · exact Or.inl ⟨(hf x).2 hn, ffStable_map hf hs⟩
    · refine Or.inr ⟨fun hc => hn ((hf x).1 hc), ?_⟩
      intro y hy
      rcases List.mem_map.1 hy with ⟨z, hz, rfl⟩
      exact fun hc => hs z hz ((hf z).1 hc)

/-- When every cell of column `c` is present, the fill pass never writes,
whatever value it carries in. -/
theorem ffillCol_congr_allSome (c : Col) :
    ∀ (rows : List Record), (∀ y ∈ colList c rows, y ≠ none) →
      ∀ l l', ffillCol c l rows = ffillCol c l' rows
  | [], _, _, _ => rfl
  | r :: rs, h, l, l' => by
    cases hr : getCol c r with
    | none =>
        have hne : getCol c r ≠ none := h (getCol c r) (by simp [colList])
        exact absurd hr hne
    | some v => simp only [ffillCol, hr]

/-- On a record list whose column `c` is stable, the forward-fill pass for
`c` is the identity. -/
theorem ffillCol_id_of_ffStable (c : Col) :
    ∀ (rows : List Record), ffStable (colList c rows) → ffillCol c none rows = rows
  | [], _ => rfl
  | r :: rs, h => by
    rcases h with ⟨hn, hs⟩ | ⟨hn, hs⟩
    · simp only [ffillCol, hn]
      rw [show setCol c none r = r from hn ▸ setCol_getCol_self c r]
      exact congrArg _ (ffillCol_id_of_ffStable c rs hs)
    · cases hr : getCol c r with
      | none => exact absurd hr hn
      | some v =>
          simp only [ffillCol, hr]
          refine congrArg _ ?_
          have hall : ∀ y ∈ colList c rs, y ≠ none := by
            intro y hy
            rcases List.mem_map.1 hy with ⟨z, hz, rfl⟩
            exact hs (getCol c z) (List.mem_map_of_mem _ hz)
          calc ffillCol c (some v) rs
              = ffillCol c none rs := ffillCol_congr_allSome c rs hall (some v) none
            _ = rs := ffillCol_id_of_ffStable c rs (ffStable_of_allSome hall)

/-! ### Clip characterisation -/

/-- The value of column `c` after the solar clipping loop. -/
theorem getCol_clipFold (c : Col) (cols : List Col) :
    ∀ (L : List Col), L.Nodup → ∀ (r : Record),
      getCol c (L.foldl (fun r c' =>
          if c' ∈ cols then setCol c' ((getCol c' r).map (fun v => max v 0)) r else r) r) =
        if c ∈ L ∧ c ∈ cols then (getCol c r).map (fun v => max v 0) else getCol c r
  | [], _, r => by simp
  | c' :: L, hnd, r => by
    rw [List.foldl_cons, getCol_clipFold c cols L hnd.of_cons]
    by_cases hcc : c = c'
    · subst hcc
      have hcL : c ∉ L := (List.nodup_cons.1 hnd).1
      rw [if_neg (by tauto)]
      by_cases hc : c ∈ cols
      · rw [if_pos hc, if_pos ⟨List.mem_cons_self c L, hc⟩, getCol_setCol_same]
      · rw [if_neg hc, if_neg (by tauto)]
    · have hget : getCol c (if c' ∈ cols then
          setCol c' ((getCol c' r).map (fun v => max v 0)) r else r) = getCol c r := by
        split
        · exact getCol_setCol_ne hcc _ r
        · rfl
      rw [hget]
      by_cases hL : c ∈ L ∧ c ∈ cols
      · rw [if_pos hL, if_pos ⟨List.mem_cons_of_mem c' hL.1, hL.2⟩]
      · rw [if_neg hL, if_neg (by rw [List.mem_cons]; tauto)]

theorem getCol_clipSolarRec (c : Col) (cols : List Col) (r : Record) :
    getCol c (clipSolarRec cols r) =
      if c ∈ Config.SOLAR_COLS ∧ c ∈ cols then (getCol c r).map (fun v => max v 0)
      else getCol c r :=
  getCol_clipFold c cols Config.SOLAR_COLS (by decide) r

theorem getCol_clipRHRec (c : Col) (cols : List Col) (r : Record) :
    getCol c (clipRHRec cols r) =
      if c = Col.RH ∧ Col.RH ∈ cols then (getCol c r).map (fun v => min (max v 0) 100)
      else getCol c r := by
  unfold clipRHRec
  by_cases hrh : Col.RH ∈ cols
  · rw [if_pos hrh]
    by_cases hc : c = Col.RH
    · subst hc
      rw [if_pos ⟨rfl, hrh⟩, getCol_setCol_same]
    · rw [if_neg (by tauto), getCol_setCol_ne hc]
  · rw [if_neg hrh, if_neg (by tauto)]

/-- The full per-record clip (steps 3–4) seen on one column. -/
theorem getCol_clipRec (c : Col) (cols : List Col) (r : Record) :
    getCol c (clipRHRec cols (clipSolarRec cols r)) =
      if c ∈ Config.SOLAR_COLS ∧ c ∈ cols then (getCol c r).map (fun v => max v 0)
      else if c = Col.RH ∧ Col.RH ∈ cols then (getCol c r).map (fun v => min (max v 0) 100)
      else getCol c r := by
  rw [getCol_clipRHRec, getCol_clipSolarRec]
  by_cases hs : c ∈ Config.SOLAR_COLS ∧ c ∈ cols
  · have hc : ¬ (c = Col.RH ∧ Col.RH ∈ cols) := by
      rintro ⟨rfl, -⟩
      exact absurd hs.1 (by decide)
    simp only [if_pos hs, if_neg hc]
  · simp only [if_neg hs]

/-- The clip pass transforms each column cell-wise by a missing-preserving
map. -/
theorem colList_clipRows (c : Col) (cols : List Col) (rows : List Record) :
    ∃ f : Option ℚ → Option ℚ, (∀ x, f x = none ↔ x = none) ∧
      colList c (clipRows cols rows) = (colList c rows).map f := by
  refine ⟨fun x =>
    if c ∈ Config.SOLAR_COLS ∧ c ∈ cols then x.map (fun v => max v 0)
    else if c = Col.RH ∧ Col.RH ∈ cols then x.map (fun v => min (max v 0) 100)
    else x, ?_, ?_⟩
  · intro x
    split
    · cases x <;> simp
    · split
      · cases x <;> simp
      · exact Iff.rfl
  · simp only [colList, clipRows, List.map_map]
    refine List.map_congr_left fun r _ => ?_
    simp only [Function.comp_apply, getCol_clipRec]

/-! ### Outlier-pass structure -/

theorem iqrStep_sublist (c : Col) (rows : List Record) :
    List.Sublist (iqrStep c rows) rows := List.filter_sublist rows

theorem iqrPass_sublist (cols : List Col) :
    ∀ (L : List Col) (rows : List Record),
      List.Sublist (L.foldl (fun rs c => if c ∈ cols then iqrStep c rs else rs) rows) rows
  | [], rows => List.Sublist.refl rows
  | c :: L, rows => by
    rw [List.foldl_cons]
    refine (iqrPass_sublist cols L _).trans ?_
    split
    · exact iqrStep_sublist c rows
    · exact List.Sublist.refl rows

theorem clean_data_rows_sublist (df : Dataset) :
    List.Sublist (clean_data df).rows (clipRows df.cols (ffillRows df.rows)) :=
  iqrPass_sublist df.cols Config.OUTLIER_COLS _

/-! ### The forward-fill pass is the identity on a cleaned frame -/

theorem ffillRows_id_of_ffStable (rows : List Record)
    (h : ∀ c : Col, ffStable (colList c rows)) : ffillRows rows = rows := by
  have : ∀ L : List Col, L.foldl (fun rs c => ffillCol c none rs) rows = rows := by
    intro L
    induction L with
    | nil => rfl
    | cons c L ih =>
        rw [List.foldl_cons, ffillCol_id_of_ffStable c rows (h c)]
        exact ih
  exact this allCols

/-- Every column of a cleaned frame is forward-fill stable. -/
theorem ffStable_clean_data (df : Dataset) (c : Col) :
    ffStable (colList c (clean_data df).rows) := by
  obtain ⟨f, hf, hmap⟩ := colList_clipRows c df.cols (ffillRows df.rows)
  have h1 : ffStable (colList c (ffillRows df.rows)) := by
    rw [colList_ffillRows]
    exact ffStable_ffillO_none _
  have h2 : ffStable (colList c (clipRows df.cols (ffillRows df.rows))) := by
    rw [hmap]
    exact ffStable_map hf h1
  exact ffStable_sublist ((clean_data_rows_sublist df).map (getCol c)) h2

/-! ### Value bounds after cleaning -/

theorem clean_solar_nonneg (df : Dataset) (r : Record) (hr : r ∈ (clean_data df).rows)
    (c : Col) (hcs : c ∈ Config.SOLAR_COLS) (hcc : c ∈ df.cols)
    (v : ℚ) (hv : getCol c r = some v) : 0 ≤ v := by
  have hr' : r ∈ clipRows df.cols (ffillRows df.rows) :=
    (clean_data_rows_sublist df).subset hr
  rcases List.mem_map.1 hr' with ⟨r₀, -, rfl⟩
  rw [getCol_clipRec, if_pos ⟨hcs, hcc⟩] at hv
  rcases Option.map_eq_some'.1 hv with ⟨v₀, -, rfl⟩
  exact le_max_right v₀ 0

theorem clean_rh_bounds (df : Dataset) (hrh : Col.RH ∈ df.cols)
    (r : Record) (hr : r ∈ (clean_data df).rows)
    (v : ℚ) (hv : getCol .RH r = some v) : 0 ≤ v ∧ v ≤ 100 := by
  have hr' : r ∈ clipRows df.cols (ffillRows df.rows) :=
    (clean_data_rows_sublist df).subset hr
  rcases List.mem_map.1 hr' with ⟨r₀, -, rfl⟩
  rw [getCol_clipRec, if_neg (by rintro ⟨h, -⟩; exact absurd h (by decide)),
    if_pos ⟨rfl, hrh⟩] at hv
  rcases Option.map_eq_some'.1 hv with ⟨v₀, -, rfl⟩
  constructor
  · exact le_min (le_max_right v₀ 0) (by norm_num)
  · exact min_le_right _ 100

/-! ### Clipping is the identity on a cleaned frame -/

theorem clipFold_id (cols : List Col) :
    ∀ (L : List Col) (r : Record),
      (∀ c ∈ L, c ∈ cols → (getCol c r).map (fun v => max v 0) = getCol c r) →
      L.foldl (fun r c' =>
        if c' ∈ cols then setCol c' ((getCol c' r).map (fun v => max v 0)) r else r) r = r
  | [], _, _ => rfl
  | c' :: L, r, h => by
    rw [List.foldl_cons]
    have hstep : (if c' ∈ cols then
        setCol c' ((getCol c' r).map (fun v => max v 0)) r else r) = r := by
      split
      · next hm => rw [h c' (List.mem_cons_self c' L) hm, setCol_getCol_self]
      · rfl
    rw [hstep]
    exact clipFold_id cols L r fun c hc => h c (List.mem_cons_of_mem c' hc)

theorem clipRec_id (cols : List Col) (r : Record)
    (hsol : ∀ c ∈ Config.SOLAR_COLS, c ∈ cols →
      (getCol c r).map (fun v => max v 0) = getCol c r)
    (hrh : Col.RH ∈ cols → (getCol .RH r).map (fun v => min (max v 0) 100) = getCol .RH r) :
    clipRHRec cols (clipSolarRec cols r) = r := by
  rw [show clipSolarRec cols r = r from clipFold_id cols Config.SOLAR_COLS r hsol]
  unfold clipRHRec
  split
  · next hm => rw [hrh hm, setCol_getCol_self]
  · rfl

theorem clipRows_id_clean (df : Dataset) :
    clipRows df.cols (clean_data df).rows = (clean_data df).rows := by
  have : ∀ r ∈ (clean_data df).rows, clipRHRec df.cols (clipSolarRec df.cols r) = r := by
    intro r hr
    refine clipRec_id df.cols r ?_ ?_
    · intro c hcs hcc
      cases hv : getCol c r with
      | none => rfl
      | some v =>
          have h0 : 0 ≤ v := clean_solar_nonneg df r hr c hcs hcc v hv
          simp [max_eq_left h0]
    · intro hm
      cases hv : getCol .RH r with
      | none => rfl
      | some v =>
          obtain ⟨h0, h100⟩ := clean_rh_bounds df hm r hr v hv
          simp [max_eq_left h0, min_eq_left h100]
  calc clipRows df.cols (clean_data df).rows
      = (clean_data df).rows.map id := List.map_congr_left fun r hr => this r hr
    _ = (clean_data df).rows := List.map_id _

theorem ffillRows_id_clean (df : Dataset) :
    ffillRows (clean_data df).rows = (clean_data df).rows :=
  ffillRows_id_of_ffStable _ (ffStable_clean_data df)

/-! ### Stage-wise view of the outlier pass -/

theorem clean_data_rows_eq_stage (df : Dataset) :
    (clean_data df).rows =
      stageRows df.cols (preOutlierRows df) Config.OUTLIER_COLS.length := by
  unfold clean_data stageRows preOutlierRows iqrPass
  rw [List.take_length]

theorem stage_succ (cols : List Col) (rows : List Record) (k : ℕ) (c : Col)
    (hk : Config.OUTLIER_COLS[k]? = some c) :
    stageRows cols rows (k + 1) =
      if c ∈ cols then iqrStep c (stageRows cols rows k) else stageRows cols rows k := by
  unfold stageRows
  rw [List.take_succ, hk, Option.toList_some, List.foldl_append, List.foldl_cons,
    List.foldl_nil]

theorem stage_step_sublist (cols : List Col) (rows : List Record) (k : ℕ) :
    List.Sublist (stageRows cols rows (k + 1)) (stageRows cols rows k) := by
  cases hk : Config.OUTLIER_COLS[k]? with
  | none =>
      have hlen : Config.OUTLIER_COLS.length ≤ k := by
        by_contra h
        rw [List.getElem?_eq_getElem (by omega)] at hk
        exact Option.some_ne_none _ hk
      unfold stageRows
      rw [List.take_of_length_le hlen, List.take_of_length_le (by omega)]
  | some c =>
      rw [stage_succ cols rows k c hk]
      split
      · exact iqrStep_sublist _ _
      · exact List.Sublist.refl _

theorem stage_mono (cols : List Col) (rows : List Record) {j k : ℕ} (h : j ≤ k) :
    List.Sublist (stageRows cols rows k) (stageRows cols rows j) := by
  induction k with
  | zero => rw [Nat.le_zero.1 h]
  | succ k ih =>
      rcases Nat.lt_or_ge j (k + 1) with hlt | hge
      · exact (stage_step_sublist cols rows k).trans (ih (by omega))
      · rw [Nat.le_antisymm h hge]

theorem mem_iqrStep_bounds (c : Col) (rows : List Record) (r : Record)
    (hr : r ∈ iqrStep c rows) (v : ℚ) (hv : getCol c r = some v) :
    inBounds c rows v := by
  have hp := (List.mem_filter.1 hr).2
  cases hq1 : quantileQ (1/4) (colVals c rows) with
  | none => rw [hq1] at hp; simp at hp
  | some a =>
      cases hq3 : quantileQ (3/4) (colVals c rows) with
      | none => rw [hq1, hq3] at hp; simp at hp
      | some b =>
          rw [hq1, hq3, hv] at hp
          exact ⟨a, b, hq1, hq3, of_decide_eq_true hp⟩

/-! ### Characterisation of forward fill -/

theorem lastFrom_cons_some (l : Option ℚ) (v : ℚ) (xs : List (Option ℚ)) (i : ℕ) :
    lastFrom l (some v :: xs) (i + 1) = lastFrom (some v) xs i := by
  unfold lastFrom
  rw [List.take_succ_cons, List.filterMap_cons]
  simp only [id]
  cases hA : (xs.take (i + 1)).filterMap id with
  | nil => simp [List.getLast?]
  | cons a as =>
      rw [List.getLast?_cons_cons]
      cases h2 : (a :: as).getLast? with
      | none => exact absurd (List.getLast?_eq_none_iff.1 h2) (List.cons_ne_nil a as)
      | some w => rfl

theorem lastFrom_cons_none (l : Option ℚ) (xs : List (Option ℚ)) (i : ℕ) :
    lastFrom l (none :: xs) (i + 1) = lastFrom l xs i := by
  unfold lastFrom
  rw [List.take_succ_cons, List.filterMap_cons]
  simp only [id]

theorem ffillO_getD :
    ∀ (xs : List (Option ℚ)) (l : Option ℚ) (i : ℕ), i < xs.length →
      (ffillO l xs).getD i none = lastFrom l xs i
  | [], _, i, hi => absurd hi (by simp)
  | some v :: xs, l, 0, _ => by
      rw [ffillO_cons_some]
      simp [lastFrom]
  | none :: xs, l, 0, _ => by
      rw [ffillO_cons_none]
      simp [lastFrom]
  | some v :: xs, l, i + 1, hi => by
      rw [ffillO_cons_some, List.getD_cons_succ,
        ffillO_getD xs (some v) i (by simpa using hi), lastFrom_cons_some]
  | none :: xs, l, i + 1, hi => by
      rw [ffillO_cons_none, List.getD_cons_succ,
        ffillO_getD xs l i (by simpa using hi), lastFrom_cons_none]

/-! ### The results loop of the analyzer -/

theorem resultsGo_eq (rows : List Record) :
    ∀ is : List ℕ,
      resultsGo rows is =
        (is.filter (fun i => decide (3 < i ∧ i + 3 < rows.length))).map (impactEntry rows)
  | [] => rfl
  | i :: is => by
    rw [List.filter_cons]
    by_cases h : 3 < i ∧ i + 3 < rows.length
    · rw [if_pos (by exact decide_eq_true h), resultsGo, if_pos h, List.map_cons,
        resultsGo_eq rows is]
    · rw [if_neg (by simpa using h), resultsGo, if_neg h, resultsGo_eq rows is]

/-! ### Selection lemmas for `idxmax`/`idxmin` -/

theorem idxmaxBy_mem (f : String → Option ℚ) :
    ∀ (keys : List String) (g : String) (v : ℚ),
      idxmaxBy f keys = some (g, v) → g ∈ keys ∧ f g = some v
  | [], g, v, h => by simp [idxmaxBy] at h
  | k :: ks, g, v, h => by
    rw [idxmaxBy] at h
    cases hk : f k with
    | none =>
        simp only [hk] at h
        obtain ⟨hmem, hv⟩ := idxmaxBy_mem f ks g v h
        exact ⟨List.mem_cons_of_mem k hmem, hv⟩
    | some w =>
        simp only [hk] at h
        cases hrest : idxmaxBy f ks with
        | none =>
            simp only [hrest, Option.some.injEq, Prod.mk.injEq] at h
            obtain ⟨rfl, rfl⟩ := h
            exact ⟨List.mem_cons_self _ _, hk⟩
        | some p =>
            obtain ⟨g', v'⟩ := p
            simp only [hrest] at h
            split at h
            · obtain ⟨hmem, hv⟩ := idxmaxBy_mem f ks g v (by rw [hrest]; exact h)
              exact ⟨List.mem_cons_of_mem k hmem, hv⟩
            · simp only [Option.some.injEq, Prod.mk.injEq] at h
              obtain ⟨rfl, rfl⟩ := h
              exact ⟨List.mem_cons_self _ _, hk⟩

theorem idxminBy_mem (f : String → Option ℚ) :
    ∀ (keys : List String) (g : String) (v : ℚ),
      idxminBy f keys = some (g, v) → g ∈ keys ∧ f g = some v
  | [], g, v, h => by simp [idxminBy] at h
  | k :: ks, g, v, h => by
    rw [idxminBy] at h
    cases hk : f k with
    | none =>
        simp only [hk] at h
        obtain ⟨hmem, hv⟩ := idxminBy_mem f ks g v h
        exact ⟨List.mem_cons_of_mem k hmem, hv⟩
    | some w =>
        simp only [hk] at h
        cases hrest : idxminBy f ks with
        | none =>
            simp only [hrest, Option.some.injEq, Prod.mk.injEq] at h
            obtain ⟨rfl, rfl⟩ := h
            exact ⟨List.mem_cons_self _ _, hk⟩
        | some p =>
            obtain ⟨g', v'⟩ := p
            simp only [hrest] at h
            split at h
            · obtain ⟨hmem, hv⟩ := idxminBy_mem f ks g v (by rw [hrest]; exact h)
              exact ⟨List.mem_cons_of_mem k hmem, hv⟩
            · simp only [Option.some.injEq, Prod.mk.injEq] at h
              obtain ⟨rfl, rfl⟩ := h
              exact ⟨List.mem_cons_self _ _, hk⟩

theorem idxmaxBy_strict (f : String → Option ℚ) (b : String) (vb : ℚ) :
    ∀ keys : List String, b ∈ keys → f b = some vb →
      (∀ g ∈ keys, g ≠ b → ∀ v, f g = some v → v < vb) →
      idxmaxBy f keys = some (b, vb)
  | [], hmem, _, _ => absurd hmem (List.not_mem_nil b)
  | k :: ks, hmem, hfb, hmax => by
    rw [idxmaxBy]
    by_cases hkb : k = b
    · subst hkb
      cases hrest : idxmaxBy f ks with
      | none => simp only [hfb, hrest]
      | some p =>
          obtain ⟨g', v'⟩ := p
          obtain ⟨hg'mem, hg'f⟩ := idxmaxBy_mem f ks g' v' hrest
          simp only [hfb, hrest]
          by_cases hg'b : g' = k
          · subst hg'b
            rw [hfb] at hg'f
            obtain rfl : vb = v' := Option.some_injective _ hg'f
            rw [if_neg (by simp [lt_irrefl])]
          · have hlt : v' < vb :=
              hmax g' (List.mem_cons_of_mem k hg'mem) hg'b v' hg'f
            rw [if_neg (by simpa using not_lt_of_gt hlt)]
    · have hbks : b ∈ ks := (List.mem_cons.1 hmem).resolve_left fun h => hkb h.symm
      have ih : idxmaxBy f ks = some (b, vb) :=
        idxmaxBy_strict f b vb ks hbks hfb
          (fun g hg => hmax g (List.mem_cons_of_mem k hg))
      cases hk : f k with
      | none => simp only [hk, ih]
      | some w =>
          have hw : w < vb := hmax k (List.mem_cons_self k ks) hkb w hk
          simp only [hk, ih]
          rw [if_pos (by simpa using hw)]

theorem idxminBy_strict (f : String → Option ℚ) (b : String) (vb : ℚ) :
    ∀ keys : List String, b ∈ keys → f b = some vb →
      (∀ g ∈ keys, g ≠ b → ∀ v, f g = some v → vb < v) →
      idxminBy f keys = some (b, vb)
  | [], hmem, _, _ => absurd hmem (List.not_mem_nil b)
  | k :: ks, hmem, hfb, hmin => by
    rw [idxminBy]
    by_cases hkb : k = b
    · subst hkb
      cases hrest : idxminBy f ks with
      | none => simp only [hfb, hrest]
      | some p =>
          obtain ⟨g', v'⟩ := p
          obtain ⟨hg'mem, hg'f⟩ := idxminBy_mem f ks g' v' hrest
          simp only [hfb, hrest]
          by_cases hg'b : g' = k
          · subst hg'b
            rw [hfb] at hg'f
            obtain rfl : vb = v' := Option.some_injective _ hg'f
            rw [if_neg (by simp [lt_irrefl])]
          · have hlt : vb < v' :=
              hmin g' (List.mem_cons_of_mem k hg'mem) hg'b v' hg'f
            rw [if_neg (by simpa using not_lt_of_gt hlt)]
    · have hbks : b ∈ ks := (List.mem_cons.1 hmem).resolve_left fun h => hkb h.symm
      have ih : idxminBy f ks = some (b, vb) :=
        idxminBy_strict f b vb ks hbks hfb
          (fun g hg => hmin g (List.mem_cons_of_mem k hg))
      cases hk : f k with
      | none => simp only [hk, ih]
      | some w =>
          have hw : vb < w := hmin k (List.mem_cons_self k ks) hkb w hk
          simp only [hk, ih]
          rw [if_pos (by simpa using hw)]

/-! ### Store lemmas -/

theorem readRef_alloc (s : List Dataset) (d : Dataset) (j : ℕ) (hj : j < s.length) :
    readRef (alloc s d).2 j = readRef s j :=
  List.getD_append s [d] default j hj

theorem readRef_writeRef_ne (s : List Dataset) (r : ℕ) (d : Dataset) (j : ℕ)
    (h : j ≠ r) : readRef (writeRef s r d) j = readRef s j := by
  unfold readRef writeRef
  rw [List.getD_eq_getD_get?, List.getD_eq_getD_get?, List.get?_eq_getElem?,
    List.get?_eq_getElem?, List.getElem?_set_ne (fun he => h he.symm)]

theorem length_alloc (s : List Dataset) (d : Dataset) :
    (alloc s d).2.length = s.length + 1 := by
  simp [alloc]

theorem length_writeRef (s : List Dataset) (r : ℕ) (d : Dataset) :
    (writeRef s r d).length = s.length := List.length_set s r d

/-- The solar-clip write loop: it writes only to `rc` and keeps the store
size. -/
theorem solarFold_preserve (rc : ℕ) :
    ∀ (L : List Col) (s : List Dataset),
      (L.foldl (fun st c => if c ∈ (readRef st rc).cols
          then writeRef st rc (clipSolarColD c (readRef st rc)) else st) s).length = s.length
      ∧ ∀ j, j ≠ rc →
        readRef (L.foldl (fun st c => if c ∈ (readRef st rc).cols
          then writeRef st rc (clipSolarColD c (readRef st rc)) else st) s) j = readRef s j
  | [], s => ⟨rfl, fun _ _ => rfl⟩
  | c :: L, s => by
    rw [List.foldl_cons]
    have step : (if c ∈ (readRef s rc).cols
        then writeRef s rc (clipSolarColD c (readRef s rc)) else s).length = s.length ∧
        ∀ j, j ≠ rc → readRef (if c ∈ (readRef s rc).cols
          then writeRef s rc (clipSolarColD c (readRef s rc)) else s) j = readRef s j := by
      split
      · exact ⟨length_writeRef _ _ _, fun j hj => readRef_writeRef_ne _ _ _ j hj⟩
      · exact ⟨rfl, fun _ _ => rfl⟩
    obtain ⟨ihlen, ihread⟩ := solarFold_preserve rc L _
    exact ⟨ihlen.trans step.1, fun j hj => (ihread j hj).trans (step.2 j hj)⟩

/-- The outlier loop allocates fresh frames only: existing cells are
untouched and the store only grows. -/
theorem outlierFold_preserve (cols : List Col) :
    ∀ (L : List Col) (p : ℕ × List Dataset),
      p.2.length ≤ (L.foldl (fun (p : ℕ × List Dataset) c =>
          let cur := readRef p.2 p.1
          if c ∈ cur.cols then alloc p.2 { cur with rows := iqrStep c cur.rows } else p) p).2.length
      ∧ ∀ j, j < p.2.length →
        readRef (L.foldl (fun (p : ℕ × List Dataset) c =>
          let cur := readRef p.2 p.1
          if c ∈ cur.cols then alloc p.2 { cur with rows := iqrStep c cur.rows } else p) p).2 j =
          readRef p.2 j
  | [], p => ⟨le_refl _, fun _ _ => rfl⟩
  | c :: L, p => by
    rw [List.foldl_cons]
    have step : p.2.length ≤ (let cur := readRef p.2 p.1;
        if c ∈ cur.cols then alloc p.2 { cur with rows := iqrStep c cur.rows } else p).2.length ∧
        ∀ j, j < p.2.length →
          readRef (let cur := readRef p.2 p.1;
            if c ∈ cur.cols then alloc p.2 { cur with rows := iqrStep c cur.rows } else p).2 j =
            readRef p.2 j := by
      simp only
      split
      · rw [length_alloc]
        exact ⟨Nat.le_succ _, fun j hj => readRef_alloc _ _ j hj⟩
      · exact ⟨le_refl _, fun _ _ => rfl⟩
    obtain ⟨ihlen, ihread⟩ := outlierFold_preserve cols L _
    refine ⟨le_trans step.1 ihlen, fun j hj => ?_⟩
    rw [ihread j (lt_of_lt_of_le hj step.1), step.2 j hj]

/-! ### Unfolding lemmas for the fuelled square root -/

theorem isqrtGo_zero (n lo hi : ℕ) : isqrtGo n 0 lo hi = lo := rfl

theorem isqrtGo_succ_eq (n fuel lo hi : ℕ) (h : 0 < fuel) :
    isqrtGo n fuel lo hi =
      if (lo + hi) / 2 = lo then lo
      else if (lo + hi) / 2 * ((lo + hi) / 2) ≤ n then
        isqrtGo n (fuel - 1) ((lo + hi) / 2) hi
      else isqrtGo n (fuel - 1) lo ((lo + hi) / 2) := by
  cases fuel with
  | zero => omega
  | succ f => rfl

/-! ### Correctness of the fuelled square root -/

theorem isqrtGo_spec (n : ℕ) :
    ∀ (fuel lo hi : ℕ), lo * lo ≤ n → n < hi * hi → lo < hi → hi ≤ lo + fuel + 1 →
      (isqrtGo n fuel lo hi) * (isqrtGo n fuel lo hi) ≤ n ∧
        n < (isqrtGo n fuel lo hi + 1) * (isqrtGo n fuel lo hi + 1)
  | 0, lo, hi, hlo, hhi, hlt, hfuel => by
      rw [isqrtGo_zero]
      have : hi = lo + 1 := by omega
      subst this
      exact ⟨hlo, hhi⟩
  | fuel + 1, lo, hi, hlo, hhi, hlt, hfuel => by
      rw [isqrtGo]
      by_cases hmid : (lo + hi) / 2 = lo
      · rw [if_pos hmid]
        have : hi = lo + 1 := by omega
        subst this
        exact ⟨hlo, hhi⟩
      · rw [if_neg hmid]
        have h1 : lo < (lo + hi) / 2 := by omega
        have h2 : (lo + hi) / 2 < hi := by omega
        by_cases hsq : (lo + hi) / 2 * ((lo + hi) / 2) ≤ n
        · rw [if_pos hsq]
          exact isqrtGo_spec n fuel ((lo + hi) / 2) hi hsq hhi h2 (by omega)
        · rw [if_neg hsq]
          exact isqrtGo_spec n fuel lo ((lo + hi) / 2) hlo (by omega) h1 (by omega)

theorem isqrt_spec (n : ℕ) :
    isqrt n * isqrt n ≤ n ∧ n < (isqrt n + 1) * (isqrt n + 1) := by
  unfold isqrt
  exact isqrtGo_spec n (n + 2) 0 (n + 2) (by omega) (by nlinarith) (by omega) (by omega)

/-! ### The rational floor and square-root helpers agree with the
mathematical ones -/

theorem qfloor_eq_floor (q : ℚ) : qfloor q = ⌊q⌋ := by
  rw [qfloor, Int.fdiv_eq_ediv _ (by positivity)]
  conv_rhs => rw [← Rat.num_div_den q]
  rw [Rat.floor_intCast_div_natCast]

theorem qfloor_le (q : ℚ) : (qfloor q : ℚ) ≤ q := by
  rw [qfloor_eq_floor]
  exact Int.floor_le q

theorem lt_qfloor_add_one (q : ℚ) : q < qfloor q + 1 := by
  rw [qfloor_eq_floor]
  exact Int.lt_floor_add_one q

theorem qsqrtFloor_spec (q : ℚ) (hq : 0 ≤ q) :
    ((qsqrtFloor q : ℕ) : ℚ) ^ 2 ≤ q ∧ q < (((qsqrtFloor q : ℕ) : ℚ) + 1) ^ 2 := by
  unfold qsqrtFloor
  set N : ℕ := (qfloor q).toNat with hN
  obtain ⟨hlo, hhi⟩ := isqrt_spec N
  have hNf : (N : ℤ) = qfloor q := by
    rw [hN]
    exact Int.toNat_of_nonneg (by rw [qfloor_eq_floor]; positivity)
  have hNle : (N : ℚ) ≤ q := by
    calc (N : ℚ) = ((N : ℤ) : ℚ) := by push_cast; ring
    _ = (qfloor q : ℚ) := by rw [hNf]
    _ ≤ q := qfloor_le q
  have hqlt : q < (N : ℚ) + 1 := by
    calc q < (qfloor q : ℚ) + 1 := lt_qfloor_add_one q
    _ = (N : ℚ) + 1 := by rw [← hNf]; push_cast; ring
  constructor
  · calc ((isqrt N : ℕ) : ℚ) ^ 2 = ((isqrt N * isqrt N : ℕ) : ℚ) := by push_cast; ring
    _ ≤ (N : ℚ) := by exact_mod_cast hlo
    _ ≤ q := hNle
  · have h1 : (N : ℚ) + 1 ≤ (((isqrt N : ℕ) : ℚ) + 1) ^ 2 := by
      have : (N + 1 : ℕ) ≤ (isqrt N + 1) * (isqrt N + 1) := hhi
      calc (N : ℚ) + 1 = ((N + 1 : ℕ) : ℚ) := by push_cast; ring
      _ ≤ (((isqrt N + 1) * (isqrt N + 1) : ℕ) : ℚ) := by exact_mod_cast this
      _ = (((isqrt N : ℕ) : ℚ) + 1) ^ 2 := by push_cast; ring
    exact lt_of_lt_of_le hqlt h1

/-- Evaluation rule for `stdRound100` from explicit square-root bounds. -/
theorem stdRound100_eval (v : ℚ) (m : ℕ)
    (h1 : ((m : ℕ) : ℚ) ^ 2 ≤ 10000 * v) (h2 : 10000 * v < (((m : ℕ) : ℚ) + 1) ^ 2) :
    stdRound100 v =
      if 4 * (10000 * v) < ((2 * m + 1 : ℕ) : ℚ) ^ 2 then m
      else if ((2 * m + 1 : ℕ) : ℚ) ^ 2 < 4 * (10000 * v) then m + 1
      else if m % 2 = 0 then m else m + 1 := by
  have hv : (0 : ℚ) ≤ 10000 * v := le_trans (by positivity) h1
  obtain ⟨hlo, hhi⟩ := qsqrtFloor_spec (10000 * v) hv
  have hm : qsqrtFloor (10000 * v) = m := by
    set m' : ℕ := qsqrtFloor (10000 * v) with hm'
    rcases lt_trichotomy m' m with h | h | h
    · exfalso
      have hc : (m' : ℚ) + 1 ≤ (m : ℚ) := by exact_mod_cast h
      nlinarith
    · exact h
    · exfalso
      have hc : (m : ℚ) + 1 ≤ (m' : ℚ) := by exact_mod_cast h
      nlinarith
  unfold stdRound100
  simp only []
  rw [hm]

/-! ## The claims -/

/-- `stdRound100` is the computable image of the mathematical operation on
the true standard deviation: for `0 ≤ v` it equals numpy's
round-half-to-even of `100 · √v`. -/
theorem stdRound100_sqrt (v : ℚ) (hv : 0 ≤ v) :
    ((stdRound100 v : ℕ) : ℤ) = halfEvenR (100 * Real.sqrt (v : ℝ)) := by
  have hvv : (0:ℚ) ≤ 10000 * v := by positivity
  obtain ⟨h1, h2⟩ := qsqrtFloor_spec (10000 * v) hvv
  set m : ℕ := qsqrtFloor (10000 * v) with hm
  set x : ℝ := 100 * Real.sqrt (v : ℝ) with hxdef
  have hx0 : (0:ℝ) ≤ x := by rw [hxdef]; positivity
  have hxsq : x ^ 2 = 10000 * (v : ℝ) := by
    rw [hxdef, mul_pow, Real.sq_sqrt (by exact_mod_cast hv)]
    norm_num
  have hm0 : (0:ℝ) ≤ (m:ℝ) := Nat.cast_nonneg m
  have h1R : ((m:ℝ)) ^ 2 ≤ 10000 * (v:ℝ) := by exact_mod_cast h1
  have h2R : 10000 * (v:ℝ) < ((m:ℝ) + 1) ^ 2 := by exact_mod_cast h2
  have hmle : (m:ℝ) ≤ x := by
    by_contra hc
    push_neg at hc
    nlinarith [hxsq]
  have hxlt : x < (m:ℝ) + 1 := by
    by_contra hc
    push_neg at hc
    nlinarith [hxsq]
  have hfloor : ⌊x⌋ = (m:ℤ) := by
    rw [Int.floor_eq_iff]
    constructor
    · push_cast
      exact hmle
    · push_cast
      exact hxlt
  have hiff1 : (4 * (10000 * v) < ((2 * m + 1 : ℕ) : ℚ) ^ 2) ↔ (x - (⌊x⌋:ℝ) < 1/2) := by
    rw [hfloor]
    constructor
    · intro h
      have hR : 4 * (10000 * (v:ℝ)) < (2 * (m:ℝ) + 1) ^ 2 := by
        have := h
        push_cast at this
        exact_mod_cast this
      push_cast
      nlinarith [hxsq, hx0, hm0]
    · intro h
      push_cast at h
      have hR : 4 * (10000*(v:ℝ)) < (2*(m:ℝ)+1)^2 := by nlinarith [hxsq, hx0, hm0]
      have : 4 * (10000 * v) < ((2*m+1 : ℕ) : ℚ)^2 := by
        push_cast
        exact_mod_cast hR
      exact this
  have hiff2 : (((2 * m + 1 : ℕ) : ℚ) ^ 2 < 4 * (10000 * v)) ↔ ((1:ℝ)/2 < x - (⌊x⌋:ℝ)) := by
    rw [hfloor]
    constructor
    · intro h
      have hR : (2 * (m:ℝ) + 1) ^ 2 < 4 * (10000 * (v:ℝ)) := by
        have := h
        push_cast at this
        exact_mod_cast this
      push_cast
      nlinarith [hxsq, hx0, hm0]
    · intro h
      push_cast at h
      have hR : (2*(m:ℝ)+1)^2 < 4 * (10000*(v:ℝ)) := by nlinarith [hxsq, hx0, hm0]
      have : ((2*m+1 : ℕ) : ℚ)^2 < 4 * (10000 * v) := by
        push_cast
        exact_mod_cast hR
      exact this
  unfold stdRound100 halfEvenR
  simp only []
  rw [← hm]
  by_cases hc1 : 4 * (10000 * v) < ((2 * m + 1 : ℕ) : ℚ) ^ 2
  · rw [if_pos hc1, if_pos (hiff1.1 hc1), hfloor]
  · rw [if_neg hc1, if_neg (fun h => hc1 (hiff1.2 h))]
    by_cases hc2 : ((2 * m + 1 : ℕ) : ℚ) ^ 2 < 4 * (10000 * v)
    · rw [if_pos hc2, if_pos (hiff2.1 hc2), hfloor]
      push_cast
      ring
    · rw [if_neg hc2, if_neg (fun h => hc2 (hiff2.2 h))]
      by_cases hpar : m % 2 = 0
      · rw [if_pos hpar, if_pos (by rw [hfloor]; omega), hfloor]
      · rw [if_neg hpar, if_neg (by rw [hfloor]; omega), hfloor]
        push_cast
        ring

section Claims
set_option maxHeartbeats 4000000
set_option maxRecDepth 4000

/-- C1 (counterexample): the claim says a Cleaning-flagged row at 0-based
index 3 of a 7-row Dataset is included in CleaningImpact.  In `D1`
(7 rows, the only flag at index 3) the analyzer's guard `idx > 3` rejects
the event: the `results` list stays empty and the groupby raises, so no
event for index 3 is ever included. -/
theorem c1_counterexample :
    Col.Cleaning ∈ D1.cols ∧ D1.rows.length = 7 ∧ cleaningIdx D1.rows = [3] ∧
      resultsList D1 = [] ∧ analyze_cleaning_impact D1 = .error "Region" := by
  refine ⟨by decide, by decide, ?_, ?_, ?_⟩
  · norm_num [cleaningIdx, D1, evRow, blank, getCol, List.range, List.range.loop, List.filter]
  · norm_num [resultsList, resultsGo, cleaningIdx, D1, evRow, blank, getCol,
      List.range, List.range.loop, List.filter]
  · norm_num [analyze_cleaning_impact, resultsList, resultsGo, cleaningIdx, D1, evRow, blank,
      getCol, List.range, List.range.loop, List.filter]

/-- C1 (amended): the Cleaning-Impact Analyzer excludes a Cleaning-flagged
row at index 2 *and also at index 3* — an event contributes exactly when
its index `i` satisfies `3 < i` and `i + 3 < n` — and every contributing
event is the entry with `pre` the mean over rows `[i-3, i-1]` and `post`
the mean over rows `[i+1, i+3]` of ModA and ModB (`impactEntry`). -/
theorem c1_amended_events (df : Dataset) :
    (∀ e ∈ resultsList df, ∃ i ∈ cleaningIdx df.rows,
        3 < i ∧ i + 3 < df.rows.length ∧ e = impactEntry df.rows i) ∧
    (∀ i ∈ cleaningIdx df.rows, 3 < i → i + 3 < df.rows.length →
        impactEntry df.rows i ∈ resultsList df) := by
  constructor
  · intro e he
    rw [resultsList, resultsGo_eq] at he
    rcases List.mem_map.1 he with ⟨i, hi, rfl⟩
    have h := of_decide_eq_true (List.mem_filter.1 hi).2
    exact ⟨i, (List.mem_filter.1 hi).1, h.1, h.2, rfl⟩
  · intro i hi h3 hn
    rw [resultsList, resultsGo_eq]
    exact List.mem_map_of_mem _ (List.mem_filter.2 ⟨hi, decide_eq_true ⟨h3, hn⟩⟩)

/-- C1 (witness): in the 8-row Dataset `D1b` with its only flag at index 4,
the analyzer does include the event for index 4. -/
theorem c1_witness : impactEntry D1b.rows 4 ∈ resultsList D1b := by
  have hidx : cleaningIdx D1b.rows = [4] := by
    norm_num [cleaningIdx, D1b, evRow, blank, getCol, List.range, List.range.loop, List.filter]
  exact (c1_amended_events D1b).2 4 (by rw [hidx]; exact List.mem_singleton.2 rfl)
    (by norm_num) (by norm_num [D1b])

/-- C2 (counterexample): the Cleaner is not idempotent.  On `D2`
(GHI `[0,0,0,0,100,1000]`) the first clean keeps 5 rows (1000 rejected);
re-cleaning recomputes the quartiles on the survivors, which makes 100 an
outlier too, so the second clean returns a different (4-row) Dataset. -/
theorem c2_counterexample : clean_data (clean_data D2) ≠ clean_data D2 := by
  have h1 : (clean_data D2).rows.length = 5 := by
    norm_num [clean_data, ffillRows, allCols, ffillCol, clipRows, clipSolarRec, clipRHRec,
      Config.SOLAR_COLS, Config.OUTLIER_COLS, iqrPass, iqrStep, colVals, quantileQ, sortQ,
      insertLe, quantileSorted, qfloor, interpAt, getCol, setCol, blank, ghiRow, D2,
      Int.fdiv, Int.toNat, List.filter]
    simp
  have h2 : (clean_data (clean_data D2)).rows.length = 4 := by
    norm_num [clean_data, ffillRows, allCols, ffillCol, clipRows, clipSolarRec, clipRHRec,
      Config.SOLAR_COLS, Config.OUTLIER_COLS, iqrPass, iqrStep, colVals, quantileQ, sortQ,
      insertLe, quantileSorted, qfloor, interpAt, getCol, setCol, blank, ghiRow, D2,
      Int.fdiv, Int.toNat, List.filter]
    simp
  intro h
  rw [h, h1] at h2
  exact absurd h2 (by norm_num)

/-- C2 (amended): a second application of the Cleaner changes no surviving
value and no column — `clean_data (clean_data d)` keeps the columns and the
`Comments` flag and its rows are a sublist of `clean_data d`'s rows (the
forward-fill and both clips are the identity on a cleaned frame; only the
IQR pass can remove further whole rows).  Identity itself can fail (see the
counterexample). -/
theorem c2_amended_second_pass (df : Dataset) :
    (clean_data (clean_data df)).cols = (clean_data df).cols ∧
    (clean_data (clean_data df)).hasComments = (clean_data df).hasComments ∧
    List.Sublist (clean_data (clean_data df)).rows (clean_data df).rows := by
  refine ⟨rfl, rfl, ?_⟩
  have hrows : (clean_data (clean_data df)).rows =
      iqrPass df.cols (clean_data df).rows := by
    show iqrPass (clean_data df).cols
      (clipRows (clean_data df).cols (ffillRows (clean_data df).rows)) = _
    rw [ffillRows_id_clean df]
    show iqrPass df.cols (clipRows df.cols (clean_data df).rows) = _
    rw [clipRows_id_clean df]
  rw [hrows]
  exact iqrPass_sublist df.cols Config.OUTLIER_COLS _

/-- C3 (counterexample): the final-frame bound fails on `D3`.  The GHI
filter runs first and keeps all six rows; the later Tamb filter removes the
row carrying GHI 95, and on the final frame GHI's quartiles are Q1 = Q3 = 0,
so the surviving value 100 lies outside `[Q1 - 1.5·IQR, Q3 + 1.5·IQR] = [0,0]`. -/
theorem c3_counterexample : ¬ finalBoundsClaim D3 := by
  intro h
  have hrows : (clean_data D3).rows =
      [gtRow "A" 0 10, gtRow "A" 0 10, gtRow "A" 0 10, gtRow "A" 0 10, gtRow "A" 100 10] := by
    norm_num [clean_data, ffillRows, allCols, ffillCol, clipRows, clipSolarRec, clipRHRec,
      Config.SOLAR_COLS, Config.OUTLIER_COLS, iqrPass, iqrStep, colVals, quantileQ, sortQ,
      insertLe, quantileSorted, qfloor, interpAt, getCol, setCol, blank, gtRow, D3,
      Int.fdiv, Int.toNat, List.filter]
    simp [getCol, setCol, gtRow, blank]
  have hmem : gtRow "A" 100 10 ∈ (clean_data D3).rows := by
    rw [hrows]
    simp
  have hval : getCol .GHI (gtRow "A" 100 10) = some 100 := rfl
  obtain ⟨a, b, ha, hb, hle, hge⟩ := h .GHI (by decide) (by decide) _ hmem 100 hval
  rw [hrows] at ha hb
  have hq1 : quantileQ (1/4) (colVals .GHI
      [gtRow "A" 0 10, gtRow "A" 0 10, gtRow "A" 0 10, gtRow "A" 0 10, gtRow "A" 100 10]) =
      some 0 := by
    norm_num [colVals, quantileQ, sortQ, insertLe, quantileSorted, qfloor, interpAt,
      getCol, gtRow, blank, Int.fdiv, Int.toNat]
  have hq3 : quantileQ (3/4) (colVals .GHI
      [gtRow "A" 0 10, gtRow "A" 0 10, gtRow "A" 0 10, gtRow "A" 0 10, gtRow "A" 100 10]) =
      some 0 := by
    norm_num [colVals, quantileQ, sortQ, insertLe, quantileSorted, qfloor, interpAt,
      getCol, gtRow, blank, Int.fdiv, Int.toNat]
  rw [hq1] at ha
  rw [hq3] at hb
  obtain rfl : a = 0 := by exact_mod_cast (Option.some_injective _ ha).symm
  obtain rfl : b = 0 := by exact_mod_cast (Option.some_injective _ hb).symm
  norm_num at hge

/-- C3 (amended): every remaining value of an outlier-checked column lies
within the IQR bounds computed on the *intermediate* frame at the moment
that column was filtered (rows are only removed afterwards, so the bound
certified at filter time still covers every surviving row). -/
theorem c3_amended_bounds (df : Dataset) (k : ℕ) (c : Col)
    (hk : Config.OUTLIER_COLS[k]? = some c) (hc : c ∈ df.cols) :
    ∀ r ∈ (clean_data df).rows, ∀ v, getCol c r = some v →
      inBounds c (stageRows df.cols (preOutlierRows df) k) v := by
  intro r hr v hv
  have hklt : k < Config.OUTLIER_COLS.length := by
    by_contra hcon
    rw [List.getElem?_eq_none (by omega)] at hk
    exact Option.noConfusion hk
  have hsucc : stageRows df.cols (preOutlierRows df) (k + 1) =
      iqrStep c (stageRows df.cols (preOutlierRows df) k) := by
    rw [stage_succ _ _ _ _ hk, if_pos hc]
  have hfin : r ∈ stageRows df.cols (preOutlierRows df) (k + 1) := by
    have hsub : List.Sublist
        (stageRows df.cols (preOutlierRows df) Config.OUTLIER_COLS.length)
        (stageRows df.cols (preOutlierRows df) (k + 1)) :=
      stage_mono df.cols (preOutlierRows df) (by omega)
    rw [clean_data_rows_eq_stage] at hr
    exact hsub.subset hr
  rw [hsucc] at hfin
  exact mem_iqrStep_bounds c _ r hfin v hv

/-- C3 (witness): on the one-row frame `DW6` the first outlier-loop
iteration (k = 0, column GHI) certifies the surviving value 7 against the
quartiles of the frame entering the loop. -/
theorem c3_witness : inBounds .GHI (stageRows DW6.cols (preOutlierRows DW6) 0) 7 := by
  have hmem : rw6 ∈ (clean_data DW6).rows := by
    have : (clean_data DW6).rows = [rw6] := by
      norm_num [clean_data, ffillRows, allCols, ffillCol, clipRows, clipSolarRec, clipRHRec,
        Config.SOLAR_COLS, Config.OUTLIER_COLS, iqrPass, iqrStep, colVals, quantileQ, sortQ,
        insertLe, quantileSorted, qfloor, interpAt, getCol, setCol, blank, ghiRow, rw6, DW6,
        Int.fdiv, Int.toNat, List.filter]
      simp [getCol, setCol, ghiRow, blank, rw6]
    rw [this]
    exact List.mem_singleton.2 rfl
  exact c3_amended_bounds DW6 0 .GHI (by decide) (by decide) rw6 hmem 7 rfl

/-- C4 (counterexample): on GHI `[-5, 10, 2000, 15, 12]` the cleaned
Dataset does *not* have 4 rows.  After clipping, the column is
`[0, 10, 2000, 15, 12]` with Q1 = 10 and Q3 = 15, so the IQR window is
`[2.5, 22.5]`: it rejects 2000 *and also the clipped 0*, leaving 3 rows. -/
theorem c4_counterexample : ¬ ((clean_data D4).rows.length = 4) := by
  have h : (clean_data D4).rows.length = 3 := by
    norm_num [clean_data, ffillRows, allCols, ffillCol, clipRows, clipSolarRec, clipRHRec,
      Config.SOLAR_COLS, Config.OUTLIER_COLS, iqrPass, iqrStep, colVals, quantileQ, sortQ,
      insertLe, quantileSorted, qfloor, interpAt, getCol, setCol, blank, ghiRow, D4,
      Int.fdiv, Int.toNat, List.filter]
    simp
  rw [h]
  norm_num

/-- C4 (amended): on GHI `[-5, 10, 2000, 15, 12]` the Cleaner clips −5 to 0
and the IQR filter (window `[2.5, 22.5]`) then rejects both the clipped 0
and the 2000 row, returning exactly 3 rows with GHI `[10, 15, 12]`. -/
theorem c4_amended_scenario :
    (clean_data D4).rows.map (getCol .GHI) = [some 10, some 15, some 12] ∧
      (clean_data D4).rows.length = 3 := by
  constructor
  · norm_num [clean_data, ffillRows, allCols, ffillCol, clipRows, clipSolarRec, clipRHRec,
      Config.SOLAR_COLS, Config.OUTLIER_COLS, iqrPass, iqrStep, colVals, quantileQ, sortQ,
      insertLe, quantileSorted, qfloor, interpAt, getCol, setCol, blank, ghiRow, D4,
      Int.fdiv, Int.toNat, List.filter]
    simp [getCol]
  · norm_num [clean_data, ffillRows, allCols, ffillCol, clipRows, clipSolarRec, clipRHRec,
      Config.SOLAR_COLS, Config.OUTLIER_COLS, iqrPass, iqrStep, colVals, quantileQ, sortQ,
      insertLe, quantileSorted, qfloor, interpAt, getCol, setCol, blank, ghiRow, D4,
      Int.fdiv, Int.toNat, List.filter]
    simp

/-- C5 (counterexample): forward fill does not respect region runs.  In
`D5` the second row is the first row of region B's run and its RH cell is
missing, yet after `ffill` it holds 50, inherited from region A's last
row — it does not remain missing as the claim states. -/
theorem c5_counterexample :
    D5.rows.map (·.region) = ["A", "B"] ∧
      getCol .RH (D5.rows.getD 1 (blank "")) = none ∧
      colList .RH (ffillRows D5.rows) = [some 50, some 50] := by
  refine ⟨rfl, rfl, ?_⟩
  norm_num [colList, ffillRows, allCols, ffillCol, D5, blank, getCol, setCol]

/-- C5 (amended): after the forward-fill step, the cell of column `c` at
position `i` holds the most recent non-missing value of that column *over
the whole Dataset's row order* (`lastFrom none`) — region boundaries are
not respected — and in particular it remains missing exactly when the
column is missing in every row up to `i`. -/
theorem c5_amended_ffill (c : Col) (rows : List Record) (i : ℕ) (hi : i < rows.length) :
    (colList c (ffillRows rows)).getD i none = lastFrom none (colList c rows) i := by
  rw [colList_ffillRows]
  exact ffillO_getD _ none i (by simpa [colList] using hi)

/-- C5 (witness): instantiating the fill characterisation on `D5` at
index 1: the filled cell equals the most recent value scanned over the
whole frame, namely 50. -/
theorem c5_witness : (colList .RH (ffillRows D5.rows)).getD 1 none = some 50 := by
  rw [c5_amended_ffill .RH D5.rows 1 (by norm_num [D5])]
  norm_num [lastFrom, colList, D5, blank, getCol, List.filterMap_cons]

end Claims

section Claims2
set_option maxHeartbeats 8000000
set_option maxRecDepth 4000

/-- The cleaned one-row frame `DW6`, evaluated. -/
theorem DW6_clean_rows : (clean_data DW6).rows = [rw6] := by
  norm_num [clean_data, ffillRows, allCols, ffillCol, clipRows, clipSolarRec, clipRHRec,
    Config.SOLAR_COLS, Config.OUTLIER_COLS, iqrPass, iqrStep, colVals, quantileQ, sortQ,
    insertLe, quantileSorted, qfloor, interpAt, getCol, setCol, blank, ghiRow, rw6, DW6,
    Int.fdiv, Int.toNat, List.filter]
  simp [getCol, setCol, ghiRow, blank, rw6]

/-- C6: in a cleaned Dataset, every present value of a solar column that is
in the frame's schema is ≥ 0, and every present RH value lies in [0, 100]
(clipping establishes the bounds and the outlier pass only removes whole
rows). -/
theorem c6_clean_value_bounds (df : Dataset) :
    ∀ r ∈ (clean_data df).rows,
      (∀ c ∈ Config.SOLAR_COLS, c ∈ df.cols → ∀ v, getCol c r = some v → 0 ≤ v) ∧
      (Col.RH ∈ df.cols → ∀ v, getCol .RH r = some v → 0 ≤ v ∧ v ≤ 100) :=
  fun r hr =>
    ⟨fun c hcs hcc v hv => clean_solar_nonneg df r hr c hcs hcc v hv,
     fun hrh v hv => clean_rh_bounds df hrh r hr v hv⟩

/-- C6 (witness): on the cleaned `DW6` frame, the surviving GHI value 7 is
non-negative and the RH value 50 lies in [0, 100]. -/
theorem c6_witness : (0 ≤ (7 : ℚ)) ∧ (0 ≤ (50 : ℚ) ∧ (50 : ℚ) ≤ 100) := by
  have hmem : rw6 ∈ (clean_data DW6).rows := by
    rw [DW6_clean_rows]
    exact List.mem_singleton.2 rfl
  have h := c6_clean_value_bounds DW6 rw6 hmem
  exact ⟨h.1 .GHI (by decide) (by decide) 7 rfl, h.2 (by decide) 50 rfl⟩

/-- C7: loading all regions skips every region whose loader fails and
concatenates the successful ones in order; when no region yields data the
load raises `ValueError("No valid data available")` instead of returning an
empty Dataset. -/
theorem c7_load_semantics (load : String → Except String Dataset) (regions : List String) :
    ((∀ rg ∈ regions, (load rg).toOption = none) →
      load_all_regions_data load regions = .error "No valid data available") ∧
    ((∃ rg ∈ regions, (load rg).toOption ≠ none) →
      load_all_regions_data load regions =
        .ok (concatDatasets (regions.filterMap (fun rg => (load rg).toOption)))) := by
  constructor
  · intro h
    rw [load_all_regions_data, if_pos (List.filterMap_eq_nil_iff.2 h)]
  · rintro ⟨rg, hrg, hne⟩
    rw [load_all_regions_data,
      if_neg (fun hnil => hne (List.filterMap_eq_nil_iff.1 hnil rg hrg))]

/-- C7 (witness): with every region's source missing, loading
`Config.REGIONS` fails with the fatal "no data available" error. -/
theorem c7_witness :
    load_all_regions_data loadNone Config.REGIONS = .error "No valid data available" :=
  (c7_load_semantics loadNone Config.REGIONS).1 (fun _ _ => rfl)

/-- C8 (counterexample): the claim says the engine maps "Best Overall
Potential" to the region with highest mean GHI.  `D8c` is a cleaned
Dataset (a fixed point of the Cleaner) with a row in each region where
region B's true mean GHI (251/250 = 1.004) strictly exceeds A's
(1001/1000 = 1.001), but both round to 1.00, and `idxmax` then returns the
first key "A". -/
theorem c8_counterexample :
    clean_data D8c = D8c ∧
    groupRows D8c "A" ≠ [] ∧ groupRows D8c "B" ≠ [] ∧
    meanOpt (colVals .GHI (groupRows D8c "A")) = some (1001/1000) ∧
    meanOpt (colVals .GHI (groupRows D8c "B")) = some (251/250) ∧
    (1001/1000 : ℚ) < 251/250 ∧
    generate_recommendations D8c = .ok ⟨"A", "A", "A", "A"⟩ := by
  have e1 : (decide (("A" : String) = "A")) = true := by decide
  have e2 : (decide (("B" : String) = "A")) = false := by decide
  have e3 : (decide (("A" : String) = "B")) = false := by decide
  have e4 : (decide (("B" : String) = "B")) = true := by decide
  refine ⟨?_, ?_, ?_, ?_, ?_, by norm_num, ?_⟩
  · norm_num [clean_data, ffillRows, allCols, ffillCol, clipRows, clipSolarRec, clipRHRec,
      Config.SOLAR_COLS, Config.OUTLIER_COLS, iqrPass, iqrStep, colVals, quantileQ, sortQ,
      insertLe, quantileSorted, qfloor, interpAt, getCol, setCol, blank, recRow, D8c,
      Int.fdiv, Int.toNat, List.filter, List.filterMap_cons, List.filterMap_nil]
    simp [getCol, setCol, blank, recRow]
  · norm_num [groupRows, D8c, recRow, blank, List.filter, e1, e2]
    simp
  · norm_num [groupRows, D8c, recRow, blank, List.filter, e3, e4]
    simp
  · norm_num [groupRows, D8c, recRow, blank, getCol, colVals, meanOpt,
      List.filterMap_cons, List.filterMap_nil, List.filter, e1, e2]
  · norm_num [groupRows, D8c, recRow, blank, getCol, colVals, meanOpt,
      List.filterMap_cons, List.filterMap_nil, List.filter, e3, e4]
  · have hkeys : regionKeys D8c = ["A", "B"] := by
      norm_num [regionKeys, D8c, recRow, blank, dedupStr]
      decide
    have hmA : aggMeanGHI D8c "A" = some 1 := by
      norm_num [aggMeanGHI, groupRows, D8c, recRow, blank, getCol, colVals, meanOpt,
        round2, halfEvenZ, qfloor, Int.fdiv, List.filterMap_cons, List.filterMap_nil,
        List.filter, e1, e2]
    have hmB : aggMeanGHI D8c "B" = some 1 := by
      norm_num [aggMeanGHI, groupRows, D8c, recRow, blank, getCol, colVals, meanOpt,
        round2, halfEvenZ, qfloor, Int.fdiv, List.filterMap_cons, List.filterMap_nil,
        List.filter, e3, e4]
    have hvA : sampleVar (colVals .GHI (groupRows D8c "A")) = some (1/500000) := by
      norm_num [sampleVar, groupRows, D8c, recRow, blank, getCol, colVals,
        List.filterMap_cons, List.filterMap_nil, List.filter, e1, e2]
    have hvB : sampleVar (colVals .GHI (groupRows D8c "B")) = some (4/125000) := by
      norm_num [sampleVar, groupRows, D8c, recRow, blank, getCol, colVals,
        List.filterMap_cons, List.filterMap_nil, List.filter, e3, e4]
    have hsA : aggStdGHI D8c "A" = some 0 := by
      rw [aggStdGHI, stdRounded, hvA, Option.map_some',
        stdRound100_eval (1/500000) 0 (by norm_num) (by norm_num)]
      norm_num
    have hsB : aggStdGHI D8c "B" = some (1/100) := by
      rw [aggStdGHI, stdRounded, hvB, Option.map_some',
        stdRound100_eval (4/125000) 0 (by norm_num) (by norm_num)]
      norm_num
    have hpA : aggSumPrec D8c "A" = some 0 := by
      norm_num [aggSumPrec, groupRows, D8c, recRow, blank, getCol, colVals,
        round2, halfEvenZ, qfloor, Int.fdiv, List.filterMap_cons, List.filterMap_nil,
        List.filter, e1, e2]
    have hpB : aggSumPrec D8c "B" = some 0 := by
      norm_num [aggSumPrec, groupRows, D8c, recRow, blank, getCol, colVals,
        round2, halfEvenZ, qfloor, Int.fdiv, List.filterMap_cons, List.filterMap_nil,
        List.filter, e3, e4]
    have hdA : aggMedDNI D8c "A" = some 5 := by
      norm_num [aggMedDNI, groupRows, D8c, recRow, blank, getCol, colVals, quantileQ,
        sortQ, insertLe, quantileSorted, interpAt, round2, halfEvenZ, qfloor, Int.fdiv,
        Int.toNat, List.filterMap_cons, List.filterMap_nil, List.filter, e1, e2]
    have hdB : aggMedDNI D8c "B" = some 5 := by
      norm_num [aggMedDNI, groupRows, D8c, recRow, blank, getCol, colVals, quantileQ,
        sortQ, insertLe, quantileSorted, interpAt, round2, halfEvenZ, qfloor, Int.fdiv,
        Int.toNat, List.filterMap_cons, List.filterMap_nil, List.filter, e3, e4]
    rw [generate_recommendations, if_neg (by decide), hkeys]
    simp only [idxmaxBy, idxminBy, hmA, hmB, hsA, hsB, hpA, hpB, hdA, hdB]
    norm_num

/-- C8 (amended): the Recommendation Engine selects, per decision label,
the region whose *2-decimal-rounded* aggregate is strictly extreme among
the region keys (on rounding ties the first key in sorted region order
wins, see the counterexample): highest rounded mean GHI → "Best Overall
Potential", lowest rounded GHI std → "Most Stable Radiation", lowest
rounded total Precipitation → "Lowest Maintenance Risk", highest rounded
median DNI → "Optimal CSP Location". -/
theorem c8_amended_selection (df : Dataset) (b s m c : String) (vb vs vm vc : ℚ)
    (hcols : recRequiredCols.all (· ∈ df.cols) = true)
    (hbmem : b ∈ regionKeys df) (hb : aggMeanGHI df b = some vb)
    (hbmax : ∀ g ∈ regionKeys df, g ≠ b → ∀ v, aggMeanGHI df g = some v → v < vb)
    (hsmem : s ∈ regionKeys df) (hs : aggStdGHI df s = some vs)
    (hsmin : ∀ g ∈ regionKeys df, g ≠ s → ∀ v, aggStdGHI df g = some v → vs < v)
    (hmmem : m ∈ regionKeys df) (hm : aggSumPrec df m = some vm)
    (hmmin : ∀ g ∈ regionKeys df, g ≠ m → ∀ v, aggSumPrec df g = some v → vm < v)
    (hcmem : c ∈ regionKeys df) (hc : aggMedDNI df c = some vc)
    (hcmax : ∀ g ∈ regionKeys df, g ≠ c → ∀ v, aggMedDNI df g = some v → v < vc) :
    generate_recommendations df = .ok ⟨b, s, m, c⟩ := by
  rw [generate_recommendations, if_neg (by simp [hcols])]
  simp only [idxmaxBy_strict _ b vb _ hbmem hb hbmax,
    idxminBy_strict _ s vs _ hsmem hs hsmin,
    idxminBy_strict _ m vm _ hmmem hm hmmin,
    idxmaxBy_strict _ c vc _ hcmem hc hcmax]

/-- C8 (witness): on `D8w`, region B has the strictly highest rounded mean
GHI (500 vs 300) and median DNI (200 vs 100), region A the strictly lowest
rounded GHI std (1 vs 2) and total precipitation (3 vs 6); the engine
returns exactly that mapping — in particular "Best Overall Potential" is
"B", the spec's scenario. -/
theorem c8_witness : generate_recommendations D8w = .ok ⟨"B", "A", "A", "B"⟩ := by
  have e1 : (decide (("A" : String) = "A")) = true := by decide
  have e2 : (decide (("B" : String) = "A")) = false := by decide
  have e3 : (decide (("A" : String) = "B")) = false := by decide
  have e4 : (decide (("B" : String) = "B")) = true := by decide
  have hkeys : regionKeys D8w = ["A", "B"] := by
    norm_num [regionKeys, D8w, recRow, blank, dedupStr]
    decide
  have hmA : aggMeanGHI D8w "A" = some 300 := by
    norm_num [aggMeanGHI, groupRows, D8w, recRow, blank, getCol, colVals, meanOpt,
      round2, halfEvenZ, qfloor, Int.fdiv, List.filterMap_cons, List.filterMap_nil,
      List.filter, e1, e2]
  have hmB : aggMeanGHI D8w "B" = some 500 := by
    norm_num [aggMeanGHI, groupRows, D8w, recRow, blank, getCol, colVals, meanOpt,
      round2, halfEvenZ, qfloor, Int.fdiv, List.filterMap_cons, List.filterMap_nil,
      List.filter, e3, e4]
  have hvA : sampleVar (colVals .GHI (groupRows D8w "A")) = some 1 := by
    norm_num [sampleVar, groupRows, D8w, recRow, blank, getCol, colVals,
      List.filterMap_cons, List.filterMap_nil, List.filter, e1, e2]
  have hvB : sampleVar (colVals .GHI (groupRows D8w "B")) = some 4 := by
    norm_num [sampleVar, groupRows, D8w, recRow, blank, getCol, colVals,
      List.filterMap_cons, List.filterMap_nil, List.filter, e3, e4]
  have hsA : aggStdGHI D8w "A" = some 1 := by
    rw [aggStdGHI, stdRounded, hvA, Option.map_some',
      stdRound100_eval 1 100 (by norm_num) (by norm_num)]
    norm_num
  have hsB : aggStdGHI D8w "B" = some 2 := by
    rw [aggStdGHI, stdRounded, hvB, Option.map_some',
      stdRound100_eval 4 200 (by norm_num) (by norm_num)]
    norm_num
  have hpA : aggSumPrec D8w "A" = some 3 := by
    norm_num [aggSumPrec, groupRows, D8w, recRow, blank, getCol, colVals,
      round2, halfEvenZ, qfloor, Int.fdiv, List.filterMap_cons, List.filterMap_nil,
      List.filter, e1, e2]
  have hpB : aggSumPrec D8w "B" = some 6 := by
    norm_num [aggSumPrec, groupRows, D8w, recRow, blank, getCol, colVals,
      round2, halfEvenZ, qfloor, Int.fdiv, List.filterMap_cons, List.filterMap_nil,
      List.filter, e3, e4]
  have hdA : aggMedDNI D8w "A" = some 100 := by
    norm_num [aggMedDNI, groupRows, D8w, recRow, blank, getCol, colVals, quantileQ,
      sortQ, insertLe, quantileSorted, interpAt, round2, halfEvenZ, qfloor, Int.fdiv,
      Int.toNat, List.filterMap_cons, List.filterMap_nil, List.filter, e1, e2]
  have hdB : aggMedDNI D8w "B" = some 200 := by
    norm_num [aggMedDNI, groupRows, D8w, recRow, blank, getCol, colVals, quantileQ,
      sortQ, insertLe, quantileSorted, interpAt, round2, halfEvenZ, qfloor, Int.fdiv,
      Int.toNat, List.filterMap_cons, List.filterMap_nil, List.filter, e3, e4]
  refine c8_amended_selection D8w "B" "A" "A" "B" 500 1 3 200 (by decide)
    (by rw [hkeys]; decide) hmB ?_ (by rw [hkeys]; decide) hsA ?_
    (by rw [hkeys]; decide) hpA ?_ (by rw [hkeys]; decide) hdB ?_
  · intro g hg hgne v hv
    rw [hkeys] at hg
    rcases List.mem_pair.1 hg with rfl | rfl
    · rw [hmA] at hv
      obtain rfl := Option.some_injective _ hv.symm
      norm_num
    · exact absurd rfl hgne
  · intro g hg hgne v hv
    rw [hkeys] at hg
    rcases List.mem_pair.1 hg with rfl | rfl
    · exact absurd rfl hgne
    · rw [hsB] at hv
      obtain rfl := Option.some_injective _ hv.symm
      norm_num
  · intro g hg hgne v hv
    rw [hkeys] at hg
    rcases List.mem_pair.1 hg with rfl | rfl
    · exact absurd rfl hgne
    · rw [hpB] at hv
      obtain rfl := Option.some_injective _ hv.symm
      norm_num
  · intro g hg hgne v hv
    rw [hkeys] at hg
    rcases List.mem_pair.1 hg with rfl | rfl
    · rw [hdA] at hv
      obtain rfl := Option.some_injective _ hv.symm
      norm_num
    · exact absurd rfl hgne

end Claims2

section Claims3
set_option maxHeartbeats 4000000

theorem cleanStage2_preserve (rc : ℕ) (s : List Dataset) :
    (cleanStage2 rc s).length = s.length ∧
      ∀ j, j ≠ rc → readRef (cleanStage2 rc s) j = readRef s j :=
  solarFold_preserve rc Config.SOLAR_COLS s

theorem cleanStage3_preserve (rc : ℕ) (s : List Dataset) :
    (cleanStage3 rc s).length = s.length ∧
      ∀ j, j ≠ rc → readRef (cleanStage3 rc s) j = readRef s j := by
  unfold cleanStage3
  split
  · exact ⟨length_writeRef _ _ _, fun j hj => readRef_writeRef_ne _ _ _ j hj⟩
  · exact ⟨rfl, fun _ _ => rfl⟩

theorem cleanStage4_preserve (rc : ℕ) (s : List Dataset) :
    s.length ≤ (cleanStage4 rc s).2.length ∧
      ∀ j, j < s.length → readRef (cleanStage4 rc s).2 j = readRef s j :=
  outlierFold_preserve [] Config.OUTLIER_COLS (rc, s)

/-- C9: neither the Quality Reporter nor the Cleaner mutates its input
frame: running either store program leaves the frame at the input address
exactly as it was (the cleaner's in-place column writes all target the
fresh copy made by `drop(...).ffill()`, and the mask filters and
`reset_index` allocate new frames). -/
theorem c9_no_mutation (s : List Dataset) (i : ℕ) (hi : i < s.length) :
    readRef (cleanDataProg s i).2 i = readRef s i ∧
      (qualityReportProg s i).2 = s := by
  refine ⟨?_, rfl⟩
  have hrc : (cleanStage1 s i).1 = s.length := rfl
  have hine : i ≠ (cleanStage1 s i).1 := by omega
  have l1 : (cleanStage1 s i).2.length = s.length + 1 := length_alloc _ _
  have l2 := (cleanStage2_preserve (cleanStage1 s i).1 (cleanStage1 s i).2).1
  have l3 := (cleanStage3_preserve (cleanStage1 s i).1
    (cleanStage2 (cleanStage1 s i).1 (cleanStage1 s i).2)).1
  have hi3 : i < (cleanStage3 (cleanStage1 s i).1
      (cleanStage2 (cleanStage1 s i).1 (cleanStage1 s i).2)).length := by omega
  show readRef (alloc _ _).2 i = readRef s i
  rw [readRef_alloc _ _ i (lt_of_lt_of_le hi3 (cleanStage4_preserve _ _).1),
    (cleanStage4_preserve _ _).2 i hi3,
    (cleanStage3_preserve _ _).2 i hine,
    (cleanStage2_preserve _ _).2 i hine]
  exact readRef_alloc s _ i hi

/-- C9 (witness): on a two-frame store, cleaning the frame at address 0
leaves that frame unchanged, and so does the Quality Reporter. -/
theorem c9_witness :
    readRef (cleanDataProg [default, default] 0).2 0 = readRef [default, default] 0 ∧
      (qualityReportProg [default, default] 0).2 = [default, default] :=
  c9_no_mutation [default, default] 0 (by norm_num)

/-- C10: on a Dataset with a Cleaning column but no Cleaning-flagged row at
a qualifying index (`3 < i` and `i + 3 < n`), the analyzer's `results` list
is empty and `pd.DataFrame([]).groupby('Region')` raises
`KeyError('Region')` — an error, not an empty CleaningImpact mapping. -/
theorem c10_empty_events_error (df : Dataset) (hc : Col.Cleaning ∈ df.cols)
    (h : ∀ i ∈ cleaningIdx df.rows, ¬(3 < i ∧ i + 3 < df.rows.length)) :
    analyze_cleaning_impact df = .error "Region" := by
  have hres : resultsList df = [] := by
    rw [resultsList, resultsGo_eq]
    have : (cleaningIdx df.rows).filter
        (fun i => decide (3 < i ∧ i + 3 < df.rows.length)) = [] := by
      rw [List.filter_eq_nil_iff]
      intro i hi
      simpa using h i hi
    rw [this, List.map_nil]
  rw [analyze_cleaning_impact, if_neg (by simpa using hc)]
  simp only [hres]
  norm_num

/-- C10 (witness): `D1` (its only flag at index 3, which is not
qualifying) makes the analyzer raise the Region KeyError. -/
theorem c10_witness : analyze_cleaning_impact D1 = .error "Region" := by
  have hidx : cleaningIdx D1.rows = [3] := by
    norm_num [cleaningIdx, D1, evRow, blank, getCol, List.range, List.range.loop, List.filter]
  refine c10_empty_events_error D1 (by decide) ?_
  rw [hidx]
  intro i hi
  rcases List.mem_singleton.1 hi with rfl
  norm_num

end Claims3

section StoreConsistency
set_option maxHeartbeats 1000000

theorem readRef_alloc_self (s : List Dataset) (d : Dataset) :
    readRef (alloc s d).2 (alloc s d).1 = d := by
  show (s ++ [d]).getD s.length default = d
  rw [List.getD_append_right _ _ _ _ (le_refl _), Nat.sub_self]
  rfl

theorem readRef_writeRef_self (s : List Dataset) (r : ℕ) (d : Dataset)
    (h : r < s.length) : readRef (writeRef s r d) r = d := by
  show (s.set r d).getD r default = d
  rw [List.getD_eq_getElem _ _ (by rw [List.length_set]; exact h)]
  exact List.getElem_set_self _

/-- The frame the solar-clip write loop leaves at `rc`: the original frame
with the per-record clip fold applied to every row. -/
theorem cleanStage2_content :
    ∀ (L : List Col) (s : List Dataset) (rc : ℕ), rc < s.length →
      readRef (L.foldl (fun st c => if c ∈ (readRef st rc).cols
          then writeRef st rc (clipSolarColD c (readRef st rc)) else st) s) rc =
        { readRef s rc with rows := (readRef s rc).rows.map (fun r =>
            L.foldl (fun r c => if c ∈ (readRef s rc).cols
              then setCol c ((getCol c r).map (fun v => max v 0)) r else r) r) }
  | [], s, rc, _ => by
      simp only [List.foldl_nil]
      cases readRef s rc
      simp
  | c :: L, s, rc, hrc => by
      rw [List.foldl_cons]
      by_cases hc : c ∈ (readRef s rc).cols
      · rw [if_pos hc]
        have hlen : rc < (writeRef s rc (clipSolarColD c (readRef s rc))).length := by
          rw [length_writeRef]; exact hrc
        have hread : readRef (writeRef s rc (clipSolarColD c (readRef s rc))) rc =
            clipSolarColD c (readRef s rc) := readRef_writeRef_self _ _ _ hrc
        rw [cleanStage2_content L _ rc hlen, hread]
        simp only [clipSolarColD, List.map_map]
        refine congrArg _ (List.map_congr_left fun r _ => ?_)
        simp only [Function.comp_apply]
        rw [List.foldl_cons, if_pos hc]
      · rw [if_neg hc]
        rw [cleanStage2_content L s rc hrc]
        refine congrArg _ (List.map_congr_left fun r _ => ?_)
        rw [List.foldl_cons, if_neg hc]

/-- The frame the RH-clip step leaves at `rc`. -/
theorem cleanStage3_content (rc : ℕ) (s : List Dataset) (hrc : rc < s.length) :
    readRef (cleanStage3 rc s) rc =
      { readRef s rc with rows := (readRef s rc).rows.map (clipRHRec (readRef s rc).cols) } := by
  unfold cleanStage3
  by_cases hc : Col.RH ∈ (readRef s rc).cols
  · rw [if_pos hc, readRef_writeRef_self _ _ _ hrc]
    simp only [clipRHColD]
    refine congrArg _ (List.map_congr_left fun r _ => ?_)
    rw [clipRHRec, if_pos hc]
  · rw [if_neg hc]
    have hmap : (readRef s rc).rows.map (clipRHRec (readRef s rc).cols) =
        (readRef s rc).rows := by
      have hf : ∀ r ∈ (readRef s rc).rows, clipRHRec (readRef s rc).cols r = id r := by
        intro r _
        rw [clipRHRec, if_neg hc]
        rfl
      rw [List.map_congr_left hf, List.map_id]
    rw [hmap]

/-- The frame the outlier loop's final rebinding points to: the starting
frame with the conditional IQR fold applied, at a valid address. -/
theorem cleanStage4_content :
    ∀ (L : List Col) (p : ℕ × List Dataset), p.1 < p.2.length →
      readRef (L.foldl (fun (p : ℕ × List Dataset) c =>
          let cur := readRef p.2 p.1
          if c ∈ cur.cols then alloc p.2 { cur with rows := iqrStep c cur.rows } else p) p).2
        (L.foldl (fun (p : ℕ × List Dataset) c =>
          let cur := readRef p.2 p.1
          if c ∈ cur.cols then alloc p.2 { cur with rows := iqrStep c cur.rows } else p) p).1 =
        { readRef p.2 p.1 with rows := L.foldl (fun rs c =>
            if c ∈ (readRef p.2 p.1).cols then iqrStep c rs else rs) (readRef p.2 p.1).rows } ∧
      (L.foldl (fun (p : ℕ × List Dataset) c =>
          let cur := readRef p.2 p.1
          if c ∈ cur.cols then alloc p.2 { cur with rows := iqrStep c cur.rows } else p) p).1 <
        (L.foldl (fun (p : ℕ × List Dataset) c =>
          let cur := readRef p.2 p.1
          if c ∈ cur.cols then alloc p.2 { cur with rows := iqrStep c cur.rows } else p) p).2.length
  | [], p, hp => by
      simp only [List.foldl_nil]
      refine ⟨?_, hp⟩
      cases readRef p.2 p.1
      simp
  | c :: L, p, hp => by
      rw [List.foldl_cons, List.foldl_cons]
      simp only []
      by_cases hc : c ∈ (readRef p.2 p.1).cols
      · rw [if_pos hc, if_pos hc]
        have hvalid : (alloc p.2 { readRef p.2 p.1 with
            rows := iqrStep c (readRef p.2 p.1).rows }).1 <
            (alloc p.2 { readRef p.2 p.1 with
              rows := iqrStep c (readRef p.2 p.1).rows }).2.length := by
          rw [length_alloc]
          exact Nat.lt_succ_self _
        obtain ⟨hcontent, hlt⟩ := cleanStage4_content L _ hvalid
        rw [hcontent, readRef_alloc_self]
        exact ⟨rfl, hlt⟩
      · rw [if_neg hc, if_neg hc]
        exact cleanStage4_content L p hp

/-- `cleanStage2` read back at `rc`: the per-record solar clip applied to
every row. -/
theorem cleanStage2_content_self (rc : ℕ) (s : List Dataset) (h : rc < s.length) :
    readRef (cleanStage2 rc s) rc =
      { readRef s rc with
        rows := (readRef s rc).rows.map (clipSolarRec (readRef s rc).cols) } :=
  cleanStage2_content Config.SOLAR_COLS s rc h

/-- `cleanStage4`'s final rebinding read back: the conditional IQR pass
applied to the starting frame. -/
theorem cleanStage4_content_self (rc : ℕ) (s : List Dataset) (h : rc < s.length) :
    readRef (cleanStage4 rc s).2 (cleanStage4 rc s).1 =
      { readRef s rc with
        rows := iqrPass (readRef s rc).cols (readRef s rc).rows } :=
  (cleanStage4_content Config.OUTLIER_COLS (rc, s) h).1

/-- The cleaned frame the store program returns is exactly `clean_data` of
the input frame: the program and the pure embedding agree. -/
theorem cleanDataProg_result (s : List Dataset) (i : ℕ) :
    readRef (cleanDataProg s i).2 (cleanDataProg s i).1 = clean_data (readRef s i) := by
  have hrc1 : (cleanStage1 s i).1 < (cleanStage1 s i).2.length := by
    show s.length < (alloc s _).2.length
    rw [length_alloc]
    exact Nat.lt_succ_self _
  have hrc2 : (cleanStage1 s i).1 <
      (cleanStage2 (cleanStage1 s i).1 (cleanStage1 s i).2).length := by
    rw [(cleanStage2_preserve _ _).1]
    exact hrc1
  have hrc3 : (cleanStage1 s i).1 <
      (cleanStage3 (cleanStage1 s i).1
        (cleanStage2 (cleanStage1 s i).1 (cleanStage1 s i).2)).length := by
    rw [(cleanStage3_preserve _ _).1]
    exact hrc2
  have h1 : readRef (cleanStage1 s i).2 (cleanStage1 s i).1 =
      { cols := (readRef s i).cols, hasComments := false,
        rows := ffillRows (readRef s i).rows } := readRef_alloc_self _ _
  have h2 := cleanStage2_content_self (cleanStage1 s i).1 (cleanStage1 s i).2 hrc1
  rw [h1] at h2
  have h3 := cleanStage3_content (cleanStage1 s i).1
    (cleanStage2 (cleanStage1 s i).1 (cleanStage1 s i).2) hrc2
  rw [h2] at h3
  have h4 := cleanStage4_content_self (cleanStage1 s i).1
    (cleanStage3 (cleanStage1 s i).1 (cleanStage2 (cleanStage1 s i).1 (cleanStage1 s i).2))
    hrc3
  rw [h3] at h4
  have hprog : readRef (cleanDataProg s i).2 (cleanDataProg s i).1 =
      readRef (cleanStage4 (cleanStage1 s i).1
          (cleanStage3 (cleanStage1 s i).1
            (cleanStage2 (cleanStage1 s i).1 (cleanStage1 s i).2))).2
        (cleanStage4 (cleanStage1 s i).1
          (cleanStage3 (cleanStage1 s i).1
            (cleanStage2 (cleanStage1 s i).1 (cleanStage1 s i).2))).1 :=
    readRef_alloc_self _ _
  rw [hprog, h4]
  simp only [List.map_map]
  rfl

end StoreConsistency
